import Mathlib

/-!
# Verification of `article/repository/helper.go`

The file embeds the two components of the helper:

* the cursor codec `EncodeCursor` / `DecodeCursor`, together with executable
  models of the Go standard-library routines it calls
  (`base64.StdEncoding`, `time.Time.Format`, `time.Parse` for the layout
  `timeFormat`);
* the transaction helper `WithTransaction` with `GetTransactionFromCtx`,
  `newOrNestedTx` and `recoverRollbackOrCommit`, over an explicit model of
  contexts, `database/sql` handles, deferred calls and panics.

A Go `string` / `[]byte` is a list of byte values (`List Nat`, each below 256).
-/

set_option autoImplicit false

namespace GoCleanArch

/-- A Go string or byte slice: the list of its bytes. -/
abbrev GoString := List Nat

/-- The bytes of an ASCII literal. -/
def ascii (s : String) : GoString := s.toList.map Char.toNat

/-! ## `encoding/base64`, `StdEncoding` -/

namespace Base64

/-- The 64-character alphabet of `base64.StdEncoding` (`encodeStd`). -/
def encodeStd : GoString :=
  [65, 66, 67, 68, 69, 70, 71, 72, 73, 74, 75, 76, 77, 78, 79, 80, 81, 82, 83, 84, 85, 86, 87, 88,
   89, 90, 97, 98, 99, 100, 101, 102, 103, 104, 105, 106, 107, 108, 109, 110, 111, 112, 113, 114,
   115, 116, 117, 118, 119, 120, 121, 122, 48, 49, 50, 51, 52, 53, 54, 55, 56, 57, 43, 47]

/-- The padding character `=` (`StdPadding`). -/
def padChar : Nat := 61

/-- The table lookup `enc.encode[i]`. -/
def encodeByte (i : Nat) : Nat := encodeStd.getD i 0

/-- The table lookup `enc.decodeMap[c]`: the index of `c` in the alphabet, `0xff` for every
other byte. -/
def decodeMap (c : Nat) : Nat :=
  if encodeStd.indexOf c < 64 then encodeStd.indexOf c else 255

/-- The method `Encoding.Encode` / `EncodeToString`: three source bytes become four alphabet
characters; a final block of one or two bytes is padded with `=`. -/
def EncodeToString : GoString → GoString
  | a :: b :: c :: rest =>
    let val := a * 65536 + b * 256 + c
    encodeByte (val / 262144 % 64) :: encodeByte (val / 4096 % 64) ::
      encodeByte (val / 64 % 64) :: encodeByte (val % 64) :: EncodeToString rest
  | [a, b] =>
    let val := a * 65536 + b * 256
    [encodeByte (val / 262144 % 64), encodeByte (val / 4096 % 64), encodeByte (val / 64 % 64),
      padChar]
  | [a] =>
    let val := a * 65536
    [encodeByte (val / 262144 % 64), encodeByte (val / 4096 % 64), padChar, padChar]
  | [] => []

/-- The test for a line feed or carriage return in `decodeQuantum`. -/
def isNewline (c : Nat) : Bool := c == 10 || c == 13

/-- The end of `decodeQuantum`: the sextets collected in `dbuf` (missing ones are zero) are
assembled into `val`, of whose three bytes the first `dlen - 1` are written. -/
def quantumBytes (dbuf : List Nat) : GoString :=
  let val := dbuf.getD 0 0 * 262144 + dbuf.getD 1 0 * 4096 + dbuf.getD 2 0 * 64 + dbuf.getD 3 0
  [val / 65536 % 256, val / 256 % 256, val % 256].take (dbuf.length - 1)

/-- After the padding of a quantum: new lines are skipped, and anything left is trailing
garbage, reported at its index. `si` is the index of the head of `rest`. -/
def afterPadding (rest : GoString) (si : Nat) (dbuf : List Nat) : Except Nat GoString :=
  let rest1 := rest.dropWhile isNewline
  if rest1.isEmpty then .ok (quantumBytes dbuf)
  else .error (si + (rest.length - rest1.length))

/-- The method `Encoding.Decode`, the loop over `decodeQuantum`, read one input byte at a time.
`si` is the index of the head of the remaining input and `dbuf` holds the sextets of the
current quantum (`j = dbuf.length`). The error is the position of `CorruptInputError`. -/
def decodeLoop : GoString → Nat → List Nat → Except Nat GoString
  | [], si, dbuf =>
    -- len(src) == si: fine between quanta, corrupt inside one
    if dbuf.isEmpty then .ok [] else .error (si - dbuf.length)
  | c :: rest, si, dbuf =>
    if decodeMap c != 255 then
      if dbuf.length = 3 then
        match decodeLoop rest (si + 1) [] with
        | .ok bs => .ok (quantumBytes (dbuf ++ [decodeMap c]) ++ bs)
        | .error e => .error e
      else decodeLoop rest (si + 1) (dbuf ++ [decodeMap c])
    else if isNewline c then decodeLoop rest (si + 1) dbuf
    else if c != padChar then .error si
    else
      -- the end has been reached and there is padding
      if dbuf.length < 2 then .error si
      else if dbuf.length = 2 then
        -- "==" is expected, the first "=" is already consumed
        let rest1 := rest.dropWhile isNewline
        let si1 := si + 1 + (rest.length - rest1.length)
        match rest1 with
        | [] => .error (si + 1 + rest.length)
        | c1 :: rest2 =>
          if c1 != padChar then .error (si1 - 1)
          else afterPadding rest2 (si1 + 1) dbuf
      else afterPadding rest (si + 1) dbuf

/-- The method `Encoding.DecodeString`: the decoded bytes, or the position of the
`CorruptInputError`. -/
def DecodeString (s : GoString) : Except Nat GoString := decodeLoop s 0 []

/-- Padded standard-alphabet base-64 as a grammar (RFC 4648, section 4): the characters of
the alphabet. -/
def isAlphabet (c : Nat) : Bool :=
  (65 ≤ c && c ≤ 90) || (97 ≤ c && c ≤ 122) || (48 ≤ c && c ≤ 57) || c == 43 || c == 47

/-- Padded standard-alphabet base-64 as a grammar: groups of four alphabet characters, the
last group possibly ending in `=` or `==`. -/
def validStd : GoString → Bool
  | [] => true
  | a :: b :: c :: d :: rest =>
    isAlphabet a && isAlphabet b &&
      (if isAlphabet c && isAlphabet d then validStd rest
       else rest.isEmpty && d == 61 && (c == 61 || isAlphabet c))
  | _ => false

end Base64

/-! ## `time`: the value, `Format` and `Parse` for the layout `timeFormat`

The layout `"2006-01-02T15:04:05.999Z07:00"` splits (`nextStdChunk`) into the elements
`2006`, `-`, `01`, `-`, `02`, `T`, `15`, `:`, `04`, `:`, `05`, `.999`, `Z07:00`; the loops of
`appendFormat` and `parse` are unrolled over these elements. The routines are the ones of
Go 1.21 and 1.22 (`absDate`, `daysSinceEpoch`, `Date`, the range test on the zone offset). -/

namespace GoTime

/-- The constant `timeFormat` of `helper.go`. `Format` and `Parse` below are `Time.Format` and
`time.Parse` at this layout. -/
def timeFormat : GoString := ascii "2006-01-02T15:04:05.999Z07:00"

/-- A `time.Time`: the instant as seconds since the Unix epoch with the nanoseconds inside
that second, and the offset (seconds east of UTC) that the location of the value has at
that instant. The bound of `int64` on `sec` is not modelled. -/
structure Time where
  sec : Int
  nsec : Nat
  offset : Int
  deriving DecidableEq

/-- The zero value `time.Time{}`: January 1, year 1, 00:00:00 UTC. -/
def Time.zero : Time := { sec := -62135596800, nsec := 0, offset := 0 }

/-- A `*time.ParseError`: the layout element at which parsing stopped and the message. -/
structure ParseError where
  layoutElem : String
  message : String
  deriving DecidableEq

def absoluteZeroYear : Int := -292277022399

def unixToInternal : Int := 62135596800

def internalToAbsolute : Int := 9223371966579724800

/-- The table entry `daysBefore[m]`: the days in a non-leap year before month `m + 1`. -/
def daysBefore (m : Int) : Int :=
  match m with
  | 0 => 0
  | 1 => 31
  | 2 => 59
  | 3 => 90
  | 4 => 120
  | 5 => 151
  | 6 => 181
  | 7 => 212
  | 8 => 243
  | 9 => 273
  | 10 => 304
  | 11 => 334
  | 12 => 365
  | _ => 0

def isLeap (year : Int) : Bool :=
  year % 4 == 0 && (year % 100 != 0 || year % 400 == 0)

/-- The method `Time.abs`: the seconds since the absolute zero year, on the clock of the
location. -/
def Time.abs (t : Time) : Int :=
  t.sec + t.offset + (unixToInternal + internalToAbsolute)

/-- The year and the day within the year of `absDate`: 400-, 100-, 4- and 1-year cycles are
cut off in turn. -/
def absYearDay (abs : Int) : Int × Int :=
  let d := abs / 86400
  let n := d / 146097
  let y := 400 * n
  let d := d - 146097 * n
  let n := d / 36524
  let n := n - n / 4
  let y := y + 100 * n
  let d := d - 36524 * n
  let n := d / 1461
  let y := y + 4 * n
  let d := d - 1461 * n
  let n := d / 365
  let n := n - n / 4
  let y := y + n
  let d := d - 365 * n
  (y + absoluteZeroYear, d)

/-- The function `absDate(abs, true)`: year, month and day of the month. -/
def absDate (abs : Int) : Int × Int × Int :=
  let (year, yday) := absYearDay abs
  if isLeap year && yday == 31 + 29 - 1 then (year, 2, 29)
  else
    let day := if isLeap year && yday > 31 + 29 - 1 then yday - 1 else yday
    let month := day / 31
    let stop := daysBefore (month + 1)
    if day ≥ stop then (year, month + 1 + 1, day - stop + 1)
    else (year, month + 1, day - daysBefore month + 1)

/-- The function `absClock`: hour, minute and second within the day. -/
def absClock (abs : Int) : Int × Int × Int :=
  let sec := abs % 86400
  let hour := sec / 3600
  let sec := sec - hour * 3600
  let min := sec / 60
  (hour, min, sec - min * 60)

/-- The decimal digits of `u`, most significant first; a `uint` has at most twenty. -/
def decimalDigits : Nat → Nat → GoString
  | 0, _ => []
  | fuel + 1, u => if u < 10 then [48 + u] else decimalDigits fuel (u / 10) ++ [48 + u % 10]

/-- The function `appendInt`: the sign of a negative number, then the digits padded with
zeros to `width`. -/
def appendInt (x : Int) (width : Nat) : GoString :=
  let ds := decimalDigits 20 x.natAbs
  (if x < 0 then [45] else []) ++ (List.replicate (width - ds.length) 48 ++ ds)

/-- The function `formatNano` for `.999`: of the nine digits of the nanoseconds the first
three are kept, trailing zeros are trimmed, and nothing at all is written when no digit is
left. -/
def formatNano (nanosec : Nat) : GoString :=
  let buf := [48 + nanosec / 100000000 % 10, 48 + nanosec / 10000000 % 10,
    48 + nanosec / 1000000 % 10]
  let digits := (buf.reverse.dropWhile (fun c => c == 48)).reverse
  if digits.isEmpty then [] else 46 :: digits

/-- The element `Z07:00` of `appendFormat`: `Z` for offset zero, else the sign and the offset
in hours and minutes; `offset / 60` truncates toward zero, so the seconds of the offset
are dropped. -/
def formatZone (offset : Int) : GoString :=
  if offset = 0 then [90]
  else
    let zone := if offset < 0 then -((-offset) / 60) else offset / 60
    let sign := if zone < 0 then 45 else 43
    let zone := if zone < 0 then -zone else zone
    sign :: (appendInt (zone / 60) 2 ++ 58 :: appendInt (zone % 60) 2)

/-- The method `Time.Format(timeFormat)`. -/
def Format (t : Time) : GoString :=
  let (year, month, day) := absDate t.abs
  let (hour, min, sec) := absClock t.abs
  appendInt year 4 ++ 45 :: (appendInt month 2 ++ 45 :: (appendInt day 2 ++ 84 ::
    (appendInt hour 2 ++ 58 :: (appendInt min 2 ++ 58 :: (appendInt sec 2 ++
      (formatNano t.nsec ++ formatZone t.offset))))))

/-- The test for a decimal digit, `0` to `9`. -/
def isDig (c : Nat) : Bool := 48 ≤ c && c ≤ 57

/-- The function `getnum`: one or two digits (`fixed` demands two) and the rest of the
input. -/
def getnum : GoString → Bool → Option (Nat × GoString)
  | a :: b :: rest, fixed =>
    if isDig a then
      if isDig b then some ((a - 48) * 10 + (b - 48), rest)
      else if fixed then none else some (a - 48, b :: rest)
    else none
  | [a], fixed => if isDig a && !fixed then some (a - 48, []) else none
  | [], _ => none

/-- The function `skip` for a one-byte literal of the layout. -/
def skip : GoString → Nat → Option GoString
  | v :: rest, c => if v = c then some rest else none
  | [], _ => none

/-- The element `2006` of `parse`: exactly four digits (`atoi` of `value[0:4]`). -/
def parseYear : GoString → Option (Nat × GoString)
  | a :: b :: c :: d :: rest =>
    if isDig a && isDig b && isDig c && isDig d then
      some ((a - 48) * 1000 + (b - 48) * 100 + (c - 48) * 10 + (d - 48), rest)
    else none
  | _ => none

/-- The value of a run of digits (`atoi`). -/
def digitsValue (ds : GoString) : Nat := ds.foldl (fun acc c => acc * 10 + (c - 48)) 0

/-- The element `.999` of `parse`: a fractional second is read when a `.` or `,` followed by
a digit is next, with as many digits as there are; `parseNanoseconds` keeps at most nine of
them and scales to nanoseconds. -/
def parseFrac : GoString → Nat × GoString
  | sep :: d :: rest =>
    if (sep == 46 || sep == 44) && isDig d then
      let ds := (d :: rest).takeWhile isDig
      let kept := ds.take 9
      (digitsValue kept * 10 ^ (9 - kept.length), (d :: rest).dropWhile isDig)
    else (0, sep :: d :: rest)
  | value => (0, value)

/-- The element `Z07:00` of `parse`: `Z` gives UTC (`none` as offset stands for `z = UTC`),
otherwise a sign, two digits, a colon and two digits. -/
def parseZone : GoString → Except ParseError (Option Int × GoString)
  | 90 :: rest => .ok (none, rest)
  | sign :: h1 :: h2 :: colon :: m1 :: m2 :: rest =>
    if colon != 58 then .error ⟨"Z07:00", ""⟩
    else
      match getnum [h1, h2] true with
      | none => .error ⟨"Z07:00", ""⟩
      | some (hr, _) =>
        match getnum [m1, m2] true with
        | none => if hr > 24 then .error ⟨"Z07:00", ": time zone offset hour out of range"⟩
                  else .error ⟨"Z07:00", ""⟩
        | some (mm, _) =>
          if mm > 60 then .error ⟨"Z07:00", ": time zone offset minute out of range"⟩
          else if hr > 24 then .error ⟨"Z07:00", ": time zone offset hour out of range"⟩
          else
            let zoneOffset : Int := (hr * 60 + mm) * 60
            if sign = 43 then .ok (some zoneOffset, rest)
            else if sign = 45 then .ok (some (-zoneOffset), rest)
            else .error ⟨"Z07:00", ""⟩
  | _ => .error ⟨"Z07:00", ""⟩

/-- The function `daysIn`: the days of a month. -/
def daysIn (m : Int) (year : Int) : Int :=
  if m = 2 ∧ isLeap year then 29 else daysBefore m - daysBefore (m - 1)

/-- The function `daysSinceEpoch`: the days from the absolute zero year to the start of
`year`. -/
def daysSinceEpoch (year : Int) : Int :=
  let y := year - absoluteZeroYear
  let n := y / 400
  let y := y - 400 * n
  let d := 146097 * n
  let n := y / 100
  let y := y - 100 * n
  let d := d + 36524 * n
  let n := y / 4
  let y := y - 4 * n
  let d := d + 1461 * n
  d + 365 * y

/-- The function `Date(year, month, day, hour, min, sec, nsec, UTC)`: the fields are
normalised (`norm`), the days and seconds since the absolute zero year are counted and
converted to Unix seconds. The result is in UTC. -/
def Date (year month day hour min sec : Int) (nsec : Nat) : Time :=
  let m := month - 1
  let year := year + m / 12
  let month := m % 12 + 1
  let sec := sec + (nsec / 1000000000 : Nat)
  let nsec := nsec % 1000000000
  let min := min + sec / 60
  let sec := sec % 60
  let hour := hour + min / 60
  let min := min % 60
  let day := day + hour / 24
  let hour := hour % 24
  let d := daysSinceEpoch year + daysBefore (month - 1) +
    (if isLeap year && month ≥ 3 then 1 else 0) + (day - 1)
  let abs := d * 86400 + (hour * 3600 + min * 60 + sec)
  { sec := abs - (unixToInternal + internalToAbsolute), nsec := nsec, offset := 0 }

/-- The end of `parse`: with `z = UTC` the result is `Date(..., UTC)`; with a numeric zone the
fields are taken as UTC and the offset is subtracted (`addSec`), and the location of the result
(`Local` when its offset agrees, a fixed zone otherwise) has that offset. -/
def parsedTime (year month day hour min sec nsec : Nat) (zone : Option Int) : Time :=
  match zone with
  | none => Date year month day hour min sec nsec
  | some zoneOffset =>
    { sec := (Date year month day hour min sec nsec).sec - zoneOffset,
      nsec := (Date year month day hour min sec nsec).nsec, offset := zoneOffset }

/-- The function `time.Parse(timeFormat, value)`. After each element a range error is
reported before a syntax error; the day of the month is validated once the whole value is
read. Of a `ParseError` the layout element and the message are kept (the message for extra
text without the quoted text). -/
def Parse (value : GoString) : Except ParseError Time :=
  match parseYear value with
  | none => .error ⟨"2006", ""⟩
  | some (year, value) =>
  match skip value 45 with
  | none => .error ⟨"-", ""⟩
  | some value =>
  match getnum value true with
  | none => .error ⟨"01", ""⟩
  | some (month, value) =>
  if month = 0 ∨ 12 < month then .error ⟨"01", ": month out of range"⟩ else
  match skip value 45 with
  | none => .error ⟨"-", ""⟩
  | some value =>
  match getnum value true with
  | none => .error ⟨"02", ""⟩
  | some (day, value) =>
  match skip value 84 with
  | none => .error ⟨"T", ""⟩
  | some value =>
  match getnum value false with
  | none => .error ⟨"15", ""⟩
  | some (hour, value) =>
  if 24 ≤ hour then .error ⟨"15", ": hour out of range"⟩ else
  match skip value 58 with
  | none => .error ⟨":", ""⟩
  | some value =>
  match getnum value true with
  | none => .error ⟨"04", ""⟩
  | some (min, value) =>
  if 60 ≤ min then .error ⟨"04", ": minute out of range"⟩ else
  match skip value 58 with
  | none => .error ⟨":", ""⟩
  | some value =>
  match getnum value true with
  | none => .error ⟨"05", ""⟩
  | some (sec, value) =>
  if 60 ≤ sec then .error ⟨"05", ": second out of range"⟩ else
  match parseFrac value with
  | (nsec, value) =>
  match parseZone value with
  | .error e => .error e
  | .ok (zone, value) =>
  if !value.isEmpty then .error ⟨"", ": extra text"⟩ else
  if day < 1 ∨ (day : Int) > daysIn month year then .error ⟨"", ": day out of range"⟩ else
  .ok (parsedTime year month day hour min sec nsec zone)

/-- The year, on the clock of its location, that `Format` writes for `t`. -/
def Time.year (t : Time) : Int := (absDate t.abs).1

/-- The value `t` truncated to milliseconds: the same second and offset, the nanoseconds cut
down to a whole number of milliseconds. -/
def Time.truncMilli (t : Time) : Time :=
  { sec := t.sec, nsec := t.nsec / 1000000 * 1000000, offset := t.offset }

end GoTime

/-! ## The cursor codec of `helper.go` -/

open GoTime

/-- The `error` values `DecodeCursor` can return: the `base64.CorruptInputError` of
`DecodeString` (with its input position) or the `*time.ParseError` of `time.Parse`. -/
inductive CursorError where
  | corruptInput (pos : Nat)
  | parse (e : ParseError)
  deriving DecidableEq

/-- The function `DecodeCursor`: the result pair `(time.Time, error)`; `none` is the nil
error. -/
def DecodeCursor (encodedTime : GoString) : Time × Option CursorError :=
  match Base64.DecodeString encodedTime with
  | .error pos => (Time.zero, some (.corruptInput pos))
  | .ok byt =>
    match Parse byt with
    | .ok t => (t, none)
    | .error e => (Time.zero, some (.parse e))

/-- The function `EncodeCursor`. -/
def EncodeCursor (t : Time) : GoString :=
  Base64.EncodeToString (Format t)

/-- The input of `DecodeString` without the new-line characters it ignores. -/
def stripNewlines (s : GoString) : GoString := s.filter (fun c => !Base64.isNewline c)

/-- The wire format of the cursor text in the words of the specification: the zone is `Z` or
an explicit numeric offset `+hh:mm` / `-hh:mm`. -/
def wireZone : GoString → Bool
  | [90] => true
  | [sign, h1, h2, 58, m1, m2] =>
    (sign == 43 || sign == 45) && isDig h1 && isDig h2 && isDig m1 && isDig m2
  | _ => false

/-- The wire format in the words of the specification: `n` further fraction digits may come
before the zone. -/
def wireDigitsZone : Nat → GoString → Bool
  | 0, rest => wireZone rest
  | n + 1, rest =>
    wireZone rest ||
      (match rest with
       | d :: rest1 => isDig d && wireDigitsZone n rest1
       | [] => false)

/-- The wire format of the cursor text in the words of the specification:
`YYYY-MM-DDTHH:MM:SS.sssZ`, or with an explicit numeric offset instead of `Z`, the
sub-second precision capped at three digits (the fraction may be absent). -/
def matchesWirePattern : GoString → Bool
  | y1 :: y2 :: y3 :: y4 :: 45 :: mo1 :: mo2 :: 45 :: d1 :: d2 :: 84 :: h1 :: h2 :: 58 ::
      mi1 :: mi2 :: 58 :: s1 :: s2 :: rest =>
    [y1, y2, y3, y4, mo1, mo2, d1, d2, h1, h2, mi1, mi2, s1, s2].all isDig &&
      (match rest with
       | 46 :: d :: rest1 => isDig d && wireDigitsZone 2 rest1
       | _ => wireZone rest)
  | _ => false

/-- The number written by two digits. -/
def num2 (a b : Nat) : Nat := (a - 48) * 10 + (b - 48)

/-- The hour field as `time.Parse` reads it: one digit, or two digits below 24. -/
def IsHour (hh : GoString) : Prop :=
  (∃ h, hh = [h] ∧ isDig h = true) ∨
    (∃ h1 h2, hh = [h1, h2] ∧ isDig h1 = true ∧ isDig h2 = true ∧ num2 h1 h2 < 24)

/-- The fractional second as `time.Parse` reads it: absent, or `.` or `,` followed by one or
more digits, however many. -/
def IsFraction (frac : GoString) : Prop :=
  frac = [] ∨ ∃ sep ds, frac = sep :: ds ∧ (sep = 46 ∨ sep = 44) ∧ ds ≠ [] ∧
    ∀ d ∈ ds, isDig d = true

/-- The zone as `time.Parse` reads it: `Z`, or a sign with two-digit hours up to 24 and
two-digit minutes up to 60. -/
def IsZone (zone : GoString) : Prop :=
  zone = [90] ∨ ∃ sign h1 h2 m1 m2, zone = [sign, h1, h2, 58, m1, m2] ∧ (sign = 43 ∨ sign = 45) ∧
    isDig h1 = true ∧ isDig h2 = true ∧ isDig m1 = true ∧ isDig m2 = true ∧
    num2 h1 h2 ≤ 24 ∧ num2 m1 m2 ≤ 60

/-- The texts that match the layout `timeFormat` as `time.Parse` reads it: four-digit year,
two-digit month between 1 and 12, two-digit day that exists in that month, `T`, the hour,
two-digit minute and second below 60, the optional fraction, the zone. -/
def MatchesLayout (txt : GoString) : Prop :=
  ∃ (y1 y2 y3 y4 mo1 mo2 d1 d2 mi1 mi2 s1 s2 : Nat) (hh frac zone : GoString),
    txt = [y1, y2, y3, y4, 45, mo1, mo2, 45, d1, d2, 84] ++ hh ++
      [58, mi1, mi2, 58, s1, s2] ++ frac ++ zone ∧
    (∀ c ∈ [y1, y2, y3, y4, mo1, mo2, d1, d2, mi1, mi2, s1, s2], isDig c = true) ∧
    IsHour hh ∧ IsFraction frac ∧ IsZone zone ∧
    1 ≤ num2 mo1 mo2 ∧ num2 mo1 mo2 ≤ 12 ∧ 1 ≤ num2 d1 d2 ∧
    (num2 d1 d2 : Int) ≤
      daysIn (num2 mo1 mo2) ((y1 - 48) * 1000 + (y2 - 48) * 100 + (y3 - 48) * 10 + (y4 - 48) : Nat) ∧
    num2 mi1 mi2 < 60 ∧ num2 s1 s2 < 60

/-! ## The transaction helper of `helper.go`

`database/sql` and `context` are modelled by what the helper observes of them: a context is
the chain of its key-value pairs, a `*sql.Tx` is nil or points to a transaction, and the calls
made on the database are recorded as a list of events. -/

/-- A Go `error` value that is not nil. -/
inductive GoError where
  /-- The value of `errors.New(msg)`. -/
  | errorString (msg : String)
  /-- A `runtime.Error`, as raised by a nil pointer dereference. -/
  | runtimeError (msg : String)
  /-- Any other error value. -/
  | other (id : Nat) (msg : String)
  deriving DecidableEq

/-- The method `Error()`. -/
def GoError.Error : GoError → String
  | .errorString msg => msg
  | .runtimeError msg => msg
  | .other _ msg => msg

/-- A `*sql.Tx`: `none` is the nil pointer, `some id` points to transaction `id`. -/
abbrev TxHandle := Option Nat

/-- A key of a context. Keys are compared with their type: only a `contextKey` equals
`ctxKeyTransaction`. -/
inductive Key where
  | contextKey (s : String)
  | other (id : Nat)
  deriving DecidableEq

/-- A value stored in a context, with its dynamic type: a `*sql.Tx` (possibly the nil
pointer), or a value of another type. -/
inductive Value where
  | sqlTx (tx : TxHandle)
  | other (id : Nat)
  deriving DecidableEq

def ctxKeyTransaction : Key := .contextKey "dbTx"

/-- A `context.Context`: the pairs attached by `context.WithValue`, the innermost first. -/
abbrev Context := List (Key × Value)

/-- The method `ctx.Value(key)`: the innermost value under `key`, `none` for the nil
interface. -/
def Context.Value (ctx : Context) (key : Key) : Option Value :=
  match ctx with
  | [] => none
  | (k, v) :: parent => if k = key then some v else Context.Value parent key

/-- The function `context.WithValue`. -/
def WithValue (parent : Context) (key : Key) (val : Value) : Context := (key, val) :: parent

/-- An interface value as it is handed to `panic` and given back by `recover()`. -/
inductive PanicValue where
  /-- The nil interface value. As a panic value it is the `panic(nil)` for which `recover()`
  returns nil: a module with a go directive below 1.21, or `GODEBUG=panicnil=1`. With the
  panic semantics of Go 1.21 a `panic(nil)` reaches `recover` as a
  `*runtime.PanicNilError`, which is an error value (`err`). -/
  | nil
  | str (s : String)
  | err (e : GoError)
  /-- A value that is not nil and neither a string nor an error. -/
  | other (id : Nat)
  deriving DecidableEq

/-- How a call ends: it returns its `error` result (`none` is nil) or it panics. -/
inductive Outcome where
  | returned (err : Option GoError)
  | panicked (v : PanicValue)
  deriving DecidableEq

/-- What is done to the database and to the work function, in order. -/
inductive Event where
  /-- The call `db.BeginTx(ctx, nil)` and the handle it gave. -/
  | beginTx (tx : TxHandle)
  /-- The call `fn(ctx)`. -/
  | work (ctx : Context)
  | commit (id : Nat)
  | rollback (id : Nat)
  deriving DecidableEq

/-- A `*sql.DB`, by the answer of `BeginTx`: the handle and the error. A failing `BeginTx`
answers the nil handle and an error. -/
structure DB where
  BeginTx : Context → TxHandle × Option GoError

/-- The work function `fn`: the events it causes itself and how it ends. -/
abbrev Work := Context → List Event × Outcome

/-- The panic of a method call through a nil pointer. -/
def nilDereference : PanicValue :=
  .err (.runtimeError "invalid memory address or nil pointer dereference")

def GetTransactionFromCtx (ctx : Context) : TxHandle × Bool :=
  match ctx.Value ctxKeyTransaction with
  | some (.sqlTx tx) => (tx, true)
  | _ => (none, false)

/-- The function `newOrNestedTx`, with the events of the call. The error of `BeginTx` is
discarded. -/
def newOrNestedTx (ctx : Context) (dbPG : DB) : (TxHandle × Bool) × List Event :=
  let (tx, isNestedTx) := GetTransactionFromCtx ctx
  if !isNestedTx then
    let tx := (dbPG.BeginTx ctx).1
    ((tx, isNestedTx), [.beginTx tx])
  else ((tx, isNestedTx), [])

/-- The method `tx.Rollback()`: through a nil pointer it panics; its error result is not
used. -/
def Rollback (tx : TxHandle) : Except PanicValue (List Event) :=
  match tx with
  | none => .error nilDereference
  | some id => .ok [.rollback id]

/-- The method `tx.Commit()`: through a nil pointer it panics; its error result is not
used. -/
def Commit (tx : TxHandle) : Except PanicValue (List Event) :=
  match tx with
  | none => .error nilDereference
  | some id => .ok [.commit id]

/-- The type switch of `recoverRollbackOrCommit` on a recovered value: the error stored in
`*err`. -/
def recoveredError (x : PanicValue) : GoError :=
  match x with
  | .str s => .errorString s
  | .err e => e
  | _ => .errorString "unknown error"

/-- The deferred call `recoverRollbackOrCommit(tx, &err)`. `r` is what `recover()` gives:
the panic value when the function is panicking, nil when it is not; the call of `recover`
ends the panic in either case. `err` is the value of the named result. The outcome is that
of the surrounding function: it returns the value left in `*err`, or it panics when the
deferred call itself panics. -/
def recoverRollbackOrCommit (tx : TxHandle) (r : PanicValue) (err : Option GoError) :
    List Event × Outcome :=
  if r ≠ .nil then
    match Rollback tx with
    | .ok evs => (evs, .returned (some (recoveredError r)))
    | .error p => ([], .panicked p)
  else
    match err with
    | some e =>
      match Rollback tx with
      | .ok evs => (evs, .returned (some e))
      | .error p => ([], .panicked p)
    | none =>
      match Commit tx with
      | .ok evs => (evs, .returned none)
      | .error p => ([], .panicked p)

/-- The function `WithTransaction`: the events in order and the outcome of the call. The
deferred call runs when `fn` has returned, and then `recover()` gives nil, or when `fn` has
panicked, and then `recover()` gives the panic value while the named result is still nil. -/
def WithTransaction (ctx : Context) (db : DB) (fn : Work) : List Event × Outcome :=
  match newOrNestedTx ctx db with
  | ((tx, isNestedTx), evs0) =>
    if !isNestedTx then
      let ctx := WithValue ctx ctxKeyTransaction (.sqlTx tx)
      match fn ctx with
      | (evs1, .returned err) =>
        let (evs2, out) := recoverRollbackOrCommit tx .nil err
        (evs0 ++ .work ctx :: evs1 ++ evs2, out)
      | (evs1, .panicked v) =>
        let (evs2, out) := recoverRollbackOrCommit tx v none
        (evs0 ++ .work ctx :: evs1 ++ evs2, out)
    else
      match fn ctx with
      | (evs1, out) => (evs0 ++ .work ctx :: evs1, out)

/-! ## Theorems -/

namespace Base64

theorem decodeMap_encodeByte : ∀ i, i < 64 → decodeMap (encodeByte i) = i := by decide

theorem mem_of_decodeMap (c : Nat) (h : (decodeMap c != 255) = true) : c ∈ encodeStd := by
  unfold decodeMap at h
  by_cases hlt : encodeStd.indexOf c < 64
  · have : encodeStd.indexOf c < encodeStd.length := by simpa [encodeStd] using hlt
    exact List.indexOf_lt_length.mp this
  · simp [hlt] at h

set_option maxRecDepth 100000 in
theorem decodeMap_small : ∀ c, c < 128 → (decodeMap c != 255) = isAlphabet c := by decide

/-- The bytes `decodeMap` knows are the characters of the alphabet. -/
theorem decodeMap_iff (c : Nat) : (decodeMap c != 255) = isAlphabet c := by
  by_cases hc : c < 128
  · exact decodeMap_small c hc
  · have h1 : isAlphabet c = false := by
      simp only [isAlphabet, Bool.or_eq_false_iff, Bool.and_eq_false_iff, decide_eq_false_iff_not,
        beq_eq_false_iff_ne]
      omega
    rw [h1]
    by_contra h
    have hm := mem_of_decodeMap c (by simpa using h)
    simp [encodeStd] at hm
    omega

/-- One alphabet character inside a quantum is collected into `dbuf`. -/
theorem decodeLoop_collect (i : Nat) (hi : i < 64) (rest : GoString) (si : Nat) (dbuf : List Nat)
    (hd : dbuf.length < 3) :
    decodeLoop (encodeByte i :: rest) si dbuf = decodeLoop rest (si + 1) (dbuf ++ [i]) := by
  have h3 : dbuf.length ≠ 3 := by omega
  have h255 : (i != 255) = true := by simp; omega
  rw [decodeLoop]
  simp only [decodeMap_encodeByte i hi, h255, if_true, h3, if_false]

/-- The fourth alphabet character completes a quantum. -/
theorem decodeLoop_complete (i : Nat) (hi : i < 64) (rest : GoString) (si : Nat) (dbuf : List Nat)
    (hd : dbuf.length = 3) :
    decodeLoop (encodeByte i :: rest) si dbuf =
      match decodeLoop rest (si + 1) [] with
      | .ok bs => .ok (quantumBytes (dbuf ++ [i]) ++ bs)
      | .error e => .error e := by
  have h255 : (i != 255) = true := by simp; omega
  rw [decodeLoop]
  simp only [decodeMap_encodeByte i hi, h255, if_true, hd]

theorem decodeMap_pad : decodeMap 61 = 255 := by decide

/-- Decoding inverts encoding on byte strings, from any input position. -/
theorem decodeLoop_EncodeToString (bs : GoString) (hb : ∀ b ∈ bs, b < 256) (si : Nat) :
    decodeLoop (EncodeToString bs) si [] = .ok bs := by
  induction bs using EncodeToString.induct generalizing si with
  | case1 a b c rest ih =>
    have ha : a < 256 := hb a (by simp)
    have hb1 : b < 256 := hb b (by simp)
    have hc : c < 256 := hb c (by simp)
    rw [EncodeToString]
    rw [decodeLoop_collect _ (Nat.mod_lt _ (by norm_num)) _ _ _ (by simp),
      decodeLoop_collect _ (Nat.mod_lt _ (by norm_num)) _ _ _ (by simp),
      decodeLoop_collect _ (Nat.mod_lt _ (by norm_num)) _ _ _ (by simp),
      decodeLoop_complete _ (Nat.mod_lt _ (by norm_num)) _ _ _ (by simp)]
    rw [ih (fun x hx => hb x (by simp [hx]))]
    simp only [quantumBytes, List.nil_append, List.cons_append, List.getD_cons_zero,
      List.getD_cons_succ, List.length_cons, List.length_nil]
    simp only [List.take, Except.ok.injEq, List.cons.injEq, and_true, true_and, List.cons_append,
      List.nil_append]
    refine ⟨?_, ?_, ?_⟩ <;> omega
  | case2 a b =>
    have ha : a < 256 := hb a (by simp)
    have hb1 : b < 256 := hb b (by simp)
    rw [EncodeToString]
    rw [decodeLoop_collect _ (Nat.mod_lt _ (by norm_num)) _ _ _ (by simp),
      decodeLoop_collect _ (Nat.mod_lt _ (by norm_num)) _ _ _ (by simp),
      decodeLoop_collect _ (Nat.mod_lt _ (by norm_num)) _ _ _ (by simp)]
    rw [decodeLoop]
    simp [decodeMap_pad, isNewline, padChar, afterPadding, quantumBytes]
    refine ⟨?_, ?_⟩ <;> omega
  | case3 a =>
    have ha : a < 256 := hb a (by simp)
    rw [EncodeToString]
    rw [decodeLoop_collect _ (Nat.mod_lt _ (by norm_num)) _ _ _ (by simp),
      decodeLoop_collect _ (Nat.mod_lt _ (by norm_num)) _ _ _ (by simp)]
    rw [decodeLoop]
    simp [decodeMap_pad, isNewline, padChar, afterPadding, quantumBytes]
    omega
  | case4 => simp [EncodeToString, decodeLoop]

theorem DecodeString_EncodeToString (bs : GoString) (hb : ∀ b ∈ bs, b < 256) :
    DecodeString (EncodeToString bs) = .ok bs :=
  decodeLoop_EncodeToString bs hb 0

theorem isAlphabet_not_newline (c : Nat) (h : isAlphabet c = true) : isNewline c = false := by
  simp only [isAlphabet, Bool.or_eq_true, Bool.and_eq_true, decide_eq_true_eq,
    beq_iff_eq] at h
  simp only [isNewline, Bool.or_eq_false_iff, beq_eq_false_iff_ne]
  omega

theorem filter_dropWhile_newline (s : GoString) :
    (s.dropWhile isNewline).filter (fun c => !isNewline c) =
      s.filter (fun c => !isNewline c) := by
  induction s with
  | nil => rfl
  | cons c rest ih =>
    by_cases hc : isNewline c = true
    · simp [List.dropWhile_cons, List.filter_cons, hc, ih]
    · simp [List.dropWhile_cons, hc]

theorem filter_eq_nil_of_dropWhile (s : GoString) (h : (s.dropWhile isNewline).isEmpty = true) :
    s.filter (fun c => !isNewline c) = [] := by
  rw [← filter_dropWhile_newline]
  rw [List.isEmpty_iff] at h
  rw [h]
  rfl

theorem afterPadding_ok (rest : GoString) (si : Nat) (dbuf : List Nat) (out : GoString)
    (h : afterPadding rest si dbuf = .ok out) : rest.filter (fun c => !isNewline c) = [] := by
  unfold afterPadding at h
  by_cases he : (rest.dropWhile isNewline).isEmpty = true
  · exact filter_eq_nil_of_dropWhile rest he
  · simp [he] at h

/-- What `decodeLoop` accepts is well-formed once the new lines are taken out: `pre` stands
for the characters already collected for the current quantum. -/
theorem decodeLoop_valid (s : GoString) :
    ∀ (si : Nat) (dbuf : List Nat) (pre out : GoString), pre.length = dbuf.length →
      (∀ c ∈ pre, isAlphabet c = true) → pre.length < 4 → decodeLoop s si dbuf = .ok out →
      validStd (pre ++ s.filter (fun c => !isNewline c)) = true := by
  induction s with
  | nil =>
    intro si dbuf pre out hlen _ _ h
    rw [decodeLoop] at h
    by_cases hd : dbuf.isEmpty = true
    · rw [List.isEmpty_iff] at hd
      subst hd
      have : pre = [] := List.length_eq_zero.mp hlen
      subst this
      rfl
    · simp [hd] at h
  | cons c rest ih =>
    intro si dbuf pre out hlen hpre hlt h
    rw [decodeLoop] at h
    by_cases hc : isAlphabet c = true
    · have hn := isAlphabet_not_newline c hc
      have hf : (c :: rest).filter (fun c => !isNewline c) =
          c :: rest.filter (fun c => !isNewline c) := by simp [List.filter_cons, hn]
      rw [hf]
      simp only [decodeMap_iff, hc, if_true] at h
      by_cases h3 : dbuf.length = 3
      · simp only [h3, if_true] at h
        cases hrec : decodeLoop rest (si + 1) [] with
        | error e => simp [hrec] at h
        | ok bs =>
          have hv := ih (si + 1) [] [] bs rfl (by simp) (by simp) hrec
          match pre, hlen, hpre with
          | [p0, p1, p2], _, hpre =>
            have h0 := hpre p0 (by simp)
            have h1 := hpre p1 (by simp)
            have h2 := hpre p2 (by simp)
            simp only [List.nil_append] at hv
            simp [validStd, h0, h1, h2, hc, hv]
          | [], hl, _ => simp [h3] at hl
          | [_], hl, _ => simp [h3] at hl
          | [_, _], hl, _ => simp [h3] at hl
          | _ :: _ :: _ :: _ :: _, hl, _ => simp [h3] at hl
      · simp only [h3, if_false] at h
        have hv := ih (si + 1) (dbuf ++ [decodeMap c]) (pre ++ [c]) out (by simp [hlen])
          (by
            intro x hx
            rcases List.mem_append.mp hx with hx | hx
            · exact hpre x hx
            · simp at hx; rw [hx]; exact hc)
          (by simp; omega) h
        simpa using hv
    · simp only [decodeMap_iff, hc] at h
      by_cases hn : isNewline c = true
      · simp only [hn, if_true] at h
        have hf : (c :: rest).filter (fun c => !isNewline c) =
            rest.filter (fun c => !isNewline c) := by simp [List.filter_cons, hn]
        rw [hf]
        exact ih (si + 1) dbuf pre out hlen hpre hlt h
      · simp only [hn] at h
        by_cases hp : c = 61
        · subst hp
          have hf : (61 :: rest).filter (fun c => !isNewline c) =
              61 :: rest.filter (fun c => !isNewline c) := by simp [List.filter_cons, hn]
          rw [hf]
          have hpad : (61 != padChar) = false := by decide
          simp only [hpad] at h
          by_cases h2 : dbuf.length < 2
          · simp [h2] at h
          · by_cases h22 : dbuf.length = 2
            · simp [h22] at h
              match pre, hlen, hpre with
              | [p0, p1], _, hpre =>
                have h0 := hpre p0 (by simp)
                have h1 := hpre p1 (by simp)
                cases hdw : rest.dropWhile isNewline with
                | nil => simp [hdw] at h
                | cons c1 rest2 =>
                  simp only [hdw] at h
                  by_cases hc1 : c1 = 61
                  · subst hc1
                    simp [padChar] at h
                    have hr2 := afterPadding_ok _ _ _ _ h
                    have hrest : rest.filter (fun c => !isNewline c) = [61] := by
                      rw [← filter_dropWhile_newline, hdw]
                      have : isNewline 61 = false := by decide
                      simp [List.filter_cons, this, hr2]
                    rw [hrest]
                    simp [validStd, h0, h1]
                  · simp [padChar, hc1] at h
              | [], hl, _ => simp [h22] at hl
              | [_], hl, _ => simp [h22] at hl
              | _ :: _ :: _ :: _, hl, _ => simp [h22] at hl
            · simp [h2, h22] at h
              have hr := afterPadding_ok _ _ _ _ h
              rw [hr]
              have h3 : dbuf.length = 3 := by omega
              match pre, hlen, hpre with
              | [p0, p1, p2], _, hpre =>
                have h0 := hpre p0 (by simp)
                have h1 := hpre p1 (by simp)
                have h2 := hpre p2 (by simp)
                simp [validStd, h0, h1, h2]
              | [], hl, _ => simp [h3] at hl
              | [_], hl, _ => simp [h3] at hl
              | [_, _], hl, _ => simp [h3] at hl
              | _ :: _ :: _ :: _ :: _, hl, _ => simp [h3] at hl
        · have hpad : (c != padChar) = true := by simp [padChar, hp]
          simp [hpad] at h

/-- A string that is not padded standard-alphabet base-64, new lines aside, is rejected. -/
theorem DecodeString_error_of_invalid (s : GoString)
    (h : validStd (s.filter (fun c => !isNewline c)) = false) :
    ∃ pos, DecodeString s = .error pos := by
  cases hd : DecodeString s with
  | error pos => exact ⟨pos, rfl⟩
  | ok out =>
    have := decodeLoop_valid s 0 [] [] out rfl (by simp) (by simp) hd
    simp only [List.nil_append] at this
    rw [this] at h
    cases h

theorem filter_cons_keep (c : Nat) (rest : GoString) (h : isNewline c = false) :
    (c :: rest).filter (fun c => !isNewline c) = c :: rest.filter (fun c => !isNewline c) := by
  simp [List.filter_cons, h]

theorem dropWhile_of_filter_nil (s : GoString) (h : s.filter (fun c => !isNewline c) = []) :
    s.dropWhile isNewline = [] := by
  induction s with
  | nil => rfl
  | cons c rest ih =>
    by_cases hc : isNewline c = true
    · rw [List.dropWhile_cons, hc]
      simp only [if_true]
      apply ih
      simpa [List.filter_cons, hc] using h
    · simp [List.filter_cons, hc] at h

theorem dropWhile_of_filter_cons (s : GoString) (x : Nat) (xs : GoString)
    (h : s.filter (fun c => !isNewline c) = x :: xs) :
    ∃ r, s.dropWhile isNewline = x :: r ∧ r.filter (fun c => !isNewline c) = xs := by
  induction s with
  | nil => simp at h
  | cons c rest ih =>
    by_cases hc : isNewline c = true
    · rw [List.dropWhile_cons, hc]
      simp only [if_true]
      apply ih
      simpa [List.filter_cons, hc] using h
    · have hc2 : isNewline c = false := by simpa using hc
      rw [filter_cons_keep c rest hc2] at h
      simp only [List.cons.injEq] at h
      refine ⟨rest, ?_, h.2⟩
      rw [List.dropWhile_cons, hc2, h.1]
      rfl

theorem afterPadding_of_filter_nil (rest : GoString) (si : Nat) (dbuf : List Nat)
    (h : rest.filter (fun c => !isNewline c) = []) :
    afterPadding rest si dbuf = .ok (quantumBytes dbuf) := by
  simp [afterPadding, dropWhile_of_filter_nil rest h]

/-- What is well-formed once the new lines are taken out is accepted by `decodeLoop`. -/
theorem decodeLoop_ok_of_valid (s : GoString) :
    ∀ (si : Nat) (dbuf : List Nat) (pre : GoString), pre.length = dbuf.length →
      (∀ c ∈ pre, isAlphabet c = true) → pre.length < 4 →
      validStd (pre ++ s.filter (fun c => !isNewline c)) = true →
      ∃ out, decodeLoop s si dbuf = .ok out := by
  induction s with
  | nil =>
    intro si dbuf pre hlen hpre hlt hv
    simp only [List.filter_nil, List.append_nil] at hv
    have hp : pre = [] := by
      match pre, hlt, hv with
      | [], _, _ => rfl
      | [_], _, hv => simp [validStd] at hv
      | [_, _], _, hv => simp [validStd] at hv
      | [_, _, _], _, hv => simp [validStd] at hv
      | _ :: _ :: _ :: _ :: _, hlt, _ => simp only [List.length_cons] at hlt; omega
    subst hp
    have hd : dbuf = [] := List.length_eq_zero.mp hlen.symm
    subst hd
    exact ⟨[], by simp [decodeLoop]⟩
  | cons c rest ih =>
    intro si dbuf pre hlen hpre hlt hv
    rw [decodeLoop]
    by_cases hn : isNewline c = true
    · have hna : isAlphabet c = false := by
        cases ha : isAlphabet c with
        | false => rfl
        | true => rw [isAlphabet_not_newline c ha] at hn; cases hn
      have hf : (c :: rest).filter (fun c => !isNewline c) =
          rest.filter (fun c => !isNewline c) := by simp [List.filter_cons, hn]
      rw [hf] at hv
      simp only [decodeMap_iff, hna, Bool.false_eq_true, if_false, hn, if_true]
      exact ih (si + 1) dbuf pre hlen hpre hlt hv
    · have hn2 : isNewline c = false := by simpa using hn
      rw [filter_cons_keep c rest hn2] at hv
      by_cases hc : isAlphabet c = true
      · simp only [decodeMap_iff, hc, if_true]
        by_cases h3 : dbuf.length = 3
        · simp only [h3, if_true]
          match pre, hlen, hpre, hv with
          | [p0, p1, p2], _, hpre, hv =>
            have h2 := hpre p2 (by simp)
            simp only [List.cons_append, List.nil_append, validStd, h2, hc, Bool.and_self,
              if_true, Bool.and_eq_true] at hv
            obtain ⟨bs, hbs⟩ := ih (si + 1) [] [] rfl (by simp) (by simp) hv.2
            exact ⟨_, by rw [hbs]⟩
          | [], hl, _, _ => simp [h3] at hl
          | [_], hl, _, _ => simp [h3] at hl
          | [_, _], hl, _, _ => simp [h3] at hl
          | _ :: _ :: _ :: _ :: _, hl, _, _ => simp [h3] at hl
        · simp only [h3, if_false]
          apply ih (si + 1) (dbuf ++ [decodeMap c]) (pre ++ [c]) (by simp [hlen])
          · intro x hx
            rcases List.mem_append.mp hx with hx | hx
            · exact hpre x hx
            · simp at hx; rw [hx]; exact hc
          · simp; omega
          · simpa using hv
      · have hc2 : isAlphabet c = false := by simpa using hc
        simp only [decodeMap_iff, hc2, Bool.false_eq_true, if_false, hn2]
        match pre, hlen, hlt, hpre, hv with
        | [], hl, _, _, hv =>
          exfalso
          cases hr : rest.filter (fun c => !isNewline c) with
          | nil => rw [hr] at hv; simp [validStd] at hv
          | cons a r1 =>
            cases r1 with
            | nil => rw [hr] at hv; simp [validStd] at hv
            | cons b r2 =>
              cases r2 with
              | nil => rw [hr] at hv; simp [validStd] at hv
              | cons d r3 => rw [hr] at hv; simp [validStd, hc2] at hv
        | [p0], hl, _, _, hv =>
          exfalso
          cases hr : rest.filter (fun c => !isNewline c) with
          | nil => rw [hr] at hv; simp [validStd] at hv
          | cons a r1 =>
            cases r1 with
            | nil => rw [hr] at hv; simp [validStd] at hv
            | cons b r2 => rw [hr] at hv; simp [validStd, hc2] at hv
        | [p0, p1], hl, _, _, hv =>
          cases hr : rest.filter (fun c => !isNewline c) with
          | nil => rw [hr] at hv; simp [validStd] at hv
          | cons d r1 =>
            rw [hr] at hv
            simp only [List.cons_append, List.nil_append, validStd, hc2, Bool.false_and,
              Bool.false_eq_true, if_false, Bool.and_eq_true, Bool.or_eq_true, beq_iff_eq,
              List.isEmpty_iff, or_false] at hv
            obtain ⟨_, ⟨hr1, hd⟩, hc61⟩ := hv
            subst hc61 hd hr1
            obtain ⟨r, hdw, hrf⟩ := dropWhile_of_filter_cons rest 61 [] hr
            have h2 : dbuf.length = 2 := by simpa using hl.symm
            have hp : (61 != padChar) = false := by decide
            simp only [hp, h2, Bool.false_eq_true, if_false, if_true, hdw,
              show ¬ (2 < 2) by omega]
            exact ⟨_, afterPadding_of_filter_nil r _ dbuf hrf⟩
        | [p0, p1, p2], hl, _, hpre, hv =>
          have hp2 := hpre p2 (by simp)
          simp only [List.cons_append, List.nil_append, validStd, hc2, Bool.and_false,
            Bool.false_eq_true, if_false, Bool.and_eq_true, Bool.or_eq_true, beq_iff_eq,
            List.isEmpty_iff] at hv
          obtain ⟨_, ⟨hr1, hc61⟩, _⟩ := hv
          subst hc61
          have h3 : dbuf.length = 3 := by simpa using hl.symm
          have hp : (61 != padChar) = false := by decide
          simp only [hp, h3, Bool.false_eq_true, if_false, show ¬ (3 < 2) by omega,
            show ¬ (3 = 2) by omega]
          exact ⟨_, afterPadding_of_filter_nil rest _ dbuf hr1⟩
        | _ :: _ :: _ :: _ :: _, _, hlt, _, _ => simp only [List.length_cons] at hlt; omega

/-- The strings `DecodeString` accepts are the valid ones, new lines aside. -/
theorem DecodeString_ok_of_valid (s : GoString)
    (h : validStd (s.filter (fun c => !isNewline c)) = true) :
    ∃ out, DecodeString s = .ok out :=
  decodeLoop_ok_of_valid s 0 [] [] rfl (by simp) (by simp) (by simpa using h)

end Base64

namespace GoTime

theorem isLeap_iff (year : Int) :
    isLeap year = true ↔ year % 4 = 0 ∧ (year % 100 ≠ 0 ∨ year % 400 = 0) := by
  simp [isLeap]

/-- The arithmetic of the cycle cutting in `absYearDay`, on named intermediate values. -/
theorem cycles_arith (d n400 r q100 n100 r2 n4 r3 q1 n1 yday y : Int)
    (h1 : n400 = d / 146097) (h2 : r = d - 146097 * n400) (h3 : q100 = r / 36524)
    (h4 : n100 = q100 - q100 / 4) (h5 : r2 = r - 36524 * n100) (h6 : n4 = r2 / 1461)
    (h7 : r3 = r2 - 1461 * n4) (h8 : q1 = r3 / 365) (h9 : n1 = q1 - q1 / 4)
    (h10 : yday = r3 - 365 * n1) (h11 : y = 400 * n400 + 100 * n100 + 4 * n4 + n1) :
    0 ≤ yday ∧ yday ≤ 365 ∧
      (yday = 365 → n1 = 3 ∧ (n4 ≠ 24 ∨ n100 = 3)) ∧
      0 ≤ n100 ∧ n100 ≤ 3 ∧ 0 ≤ n4 ∧ n4 ≤ 24 ∧ 0 ≤ n1 ∧ n1 ≤ 3 ∧
      146097 * n400 + 36524 * n100 + 1461 * n4 + 365 * n1 + yday = d := by
  have hr : 0 ≤ r ∧ r < 146097 := by omega
  have hq100 : 0 ≤ q100 ∧ q100 ≤ 4 := by omega
  have hn100 : 0 ≤ n100 ∧ n100 ≤ 3 := by omega
  have hr2 : 0 ≤ r2 ∧ r2 ≤ 36524 := by omega
  have hn4 : 0 ≤ n4 ∧ n4 ≤ 24 := by omega
  have hr3 : 0 ≤ r3 ∧ r3 ≤ 1460 := by omega
  have hq1 : 0 ≤ q1 ∧ q1 ≤ 4 := by omega
  have hn1 : 0 ≤ n1 ∧ n1 ≤ 3 := by omega
  refine ⟨by omega, by omega, ?_, hn100.1, hn100.2, hn4.1, hn4.2, hn1.1, hn1.2, by omega⟩
  intro hy
  constructor
  · omega
  · omega

theorem daysSinceEpoch_cycles (n400 n100 n4 n1 : Int) (h1 : 0 ≤ n100) (h2 : n100 ≤ 3)
    (h3 : 0 ≤ n4) (h4 : n4 ≤ 24) (h5 : 0 ≤ n1) (h6 : n1 ≤ 3) :
    daysSinceEpoch (400 * n400 + 100 * n100 + 4 * n4 + n1 + absoluteZeroYear) =
      146097 * n400 + 36524 * n100 + 1461 * n4 + 365 * n1 := by
  simp only [daysSinceEpoch, absoluteZeroYear]
  omega

theorem isLeap_cycles (n400 n100 n4 n1 : Int) (h1 : 0 ≤ n100) (h2 : n100 ≤ 3)
    (h3 : 0 ≤ n4) (h4 : n4 ≤ 24) (h5 : 0 ≤ n1) (h6 : n1 ≤ 3) :
    isLeap (400 * n400 + 100 * n100 + 4 * n4 + n1 + absoluteZeroYear) = true ↔
      n1 = 3 ∧ (n4 ≠ 24 ∨ n100 = 3) := by
  rw [isLeap_iff]
  simp only [absoluteZeroYear]
  omega

/-- The year and day of `absYearDay` count back to the day number they were cut from. -/
theorem absYearDay_spec (abs : Int) :
    0 ≤ (absYearDay abs).2 ∧
      ((absYearDay abs).2 < 365 ∨
        (isLeap (absYearDay abs).1 = true ∧ (absYearDay abs).2 = 365)) ∧
      daysSinceEpoch (absYearDay abs).1 + (absYearDay abs).2 = abs / 86400 := by
  obtain ⟨d, hd⟩ : ∃ x, x = abs / 86400 := ⟨_, rfl⟩
  obtain ⟨n400, h1⟩ : ∃ x, x = d / 146097 := ⟨_, rfl⟩
  obtain ⟨r, h2⟩ : ∃ x, x = d - 146097 * n400 := ⟨_, rfl⟩
  obtain ⟨q100, h3⟩ : ∃ x, x = r / 36524 := ⟨_, rfl⟩
  obtain ⟨n100, h4⟩ : ∃ x, x = q100 - q100 / 4 := ⟨_, rfl⟩
  obtain ⟨r2, h5⟩ : ∃ x, x = r - 36524 * n100 := ⟨_, rfl⟩
  obtain ⟨n4, h6⟩ : ∃ x, x = r2 / 1461 := ⟨_, rfl⟩
  obtain ⟨r3, h7⟩ : ∃ x, x = r2 - 1461 * n4 := ⟨_, rfl⟩
  obtain ⟨q1, h8⟩ : ∃ x, x = r3 / 365 := ⟨_, rfl⟩
  obtain ⟨n1, h9⟩ : ∃ x, x = q1 - q1 / 4 := ⟨_, rfl⟩
  obtain ⟨yday, h10⟩ : ∃ x, x = r3 - 365 * n1 := ⟨_, rfl⟩
  have hE : absYearDay abs =
      (400 * n400 + 100 * n100 + 4 * n4 + n1 + absoluteZeroYear, yday) := by
    subst h10 h9 h8 h7 h6 h5 h4 h3 h2 h1 hd
    rfl
  obtain ⟨k1, k2, k3, k4, k5, k6, k7, k8, k9, k10⟩ :=
    cycles_arith d n400 r q100 n100 r2 n4 r3 q1 n1 yday _ h1 h2 h3 h4 h5 h6 h7 h8 h9 h10 rfl
  rw [hE, ← hd]
  simp only
  rw [daysSinceEpoch_cycles n400 n100 n4 n1 k4 k5 k6 k7 k8 k9,
    isLeap_cycles n400 n100 n4 n1 k4 k5 k6 k7 k8 k9]
  clear hE h1 h2 h3 h4 h5 h6 h7 h8 h9 h10 hd
  refine ⟨k1, ?_, k10⟩
  by_cases h365 : yday = 365
  · exact Or.inr ⟨k3 h365, h365⟩
  · left
    omega

/-- Month and day from the day of the year, as computed at the end of `absDate`. -/
theorem monthDay_arith (L : Bool) (yday : Int) (h0 : 0 ≤ yday)
    (h1 : yday < 365 ∨ (L = true ∧ yday = 365)) (hne : ¬ (L = true ∧ yday = 59))
    (day : Int) (hday : day = if (L && decide (yday > 31 + 29 - 1)) = true then yday - 1 else yday)
    (m : Int) (hm : m = day / 31) :
    (if day ≥ daysBefore (m + 1) then
        1 ≤ m + 1 + 1 ∧ m + 1 + 1 ≤ 12 ∧ 1 ≤ day - daysBefore (m + 1) + 1 ∧
          day - daysBefore (m + 1) + 1 ≤
            (if m + 1 + 1 = 2 ∧ L = true then 29
              else daysBefore (m + 1 + 1) - daysBefore (m + 1 + 1 - 1)) ∧
          daysBefore (m + 1 + 1 - 1) + (if (L && decide (m + 1 + 1 ≥ 3)) = true then 1 else 0) +
            (day - daysBefore (m + 1) + 1 - 1) = yday
      else
        1 ≤ m + 1 ∧ m + 1 ≤ 12 ∧ 1 ≤ day - daysBefore m + 1 ∧
          day - daysBefore m + 1 ≤
            (if m + 1 = 2 ∧ L = true then 29 else daysBefore (m + 1) - daysBefore (m + 1 - 1)) ∧
          daysBefore (m + 1 - 1) + (if (L && decide (m + 1 ≥ 3)) = true then 1 else 0) +
            (day - daysBefore m + 1 - 1) = yday) := by
  have hd : 0 ≤ day ∧ day ≤ 364 := by
    cases L <;> simp at hday h1 hne <;> (try split at hday) <;> omega
  have hm' : m = 0 ∨ m = 1 ∨ m = 2 ∨ m = 3 ∨ m = 4 ∨ m = 5 ∨ m = 6 ∨ m = 7 ∨ m = 8 ∨ m = 9 ∨
      m = 10 ∨ m = 11 := by omega
  rcases hm' with h | h | h | h | h | h | h | h | h | h | h | h <;> subst h <;>
    cases L <;> simp [daysBefore] at hday h1 hne ⊢ <;> (try split at hday) <;> (try split) <;> omega

/-- The date of `absDate` is a date of the calendar, and `Date` counts the same day number
for it. -/
theorem absDate_spec (abs : Int) :
    1 ≤ (absDate abs).2.1 ∧ (absDate abs).2.1 ≤ 12 ∧ 1 ≤ (absDate abs).2.2 ∧
      (absDate abs).2.2 ≤ daysIn (absDate abs).2.1 (absDate abs).1 ∧
      daysSinceEpoch (absDate abs).1 + daysBefore ((absDate abs).2.1 - 1) +
          (if (isLeap (absDate abs).1 && decide ((absDate abs).2.1 ≥ 3)) = true then 1 else 0) +
          ((absDate abs).2.2 - 1) = abs / 86400 := by
  obtain ⟨k0, k1, k2⟩ := absYearDay_spec abs
  obtain ⟨year, yday, hp⟩ : ∃ year yday, absYearDay abs = (year, yday) := ⟨_, _, rfl⟩
  rw [hp] at k0 k1 k2
  simp only at k0 k1 k2
  rw [← k2]
  by_cases hleap : (isLeap year && yday == 31 + 29 - 1) = true
  · have hE : absDate abs = (year, 2, 29) := by
      unfold absDate
      rw [hp]
      exact if_pos hleap
    rw [hE]
    simp only [Bool.and_eq_true, beq_iff_eq] at hleap
    obtain ⟨hl, hy⟩ := hleap
    simp [daysIn, daysBefore, hl]
    omega
  · have hne : ¬ (isLeap year = true ∧ yday = 59) := by
      simpa using hleap
    obtain ⟨day, hday⟩ : ∃ day, day =
        if (isLeap year && decide (yday > 31 + 29 - 1)) = true then yday - 1 else yday := ⟨_, rfl⟩
    have key := monthDay_arith (isLeap year) yday k0 k1 hne day hday _ rfl
    by_cases hge : day ≥ daysBefore (day / 31 + 1)
    · have hE : absDate abs =
          (year, day / 31 + 1 + 1, day - daysBefore (day / 31 + 1) + 1) := by
        unfold absDate
        rw [hp]
        subst hday
        exact (if_neg hleap).trans (if_pos hge)
      rw [hE]
      rw [if_pos hge] at key
      obtain ⟨a1, a2, a3, a4, a5⟩ := key
      exact ⟨a1, a2, a3, a4, by simp only; omega⟩
    · have hE : absDate abs = (year, day / 31 + 1, day - daysBefore (day / 31) + 1) := by
        unfold absDate
        rw [hp]
        subst hday
        exact (if_neg hleap).trans (if_neg hge)
      rw [hE]
      rw [if_neg hge] at key
      obtain ⟨a1, a2, a3, a4, a5⟩ := key
      exact ⟨a1, a2, a3, a4, by simp only; omega⟩

/-- The clock of `absClock` is a time of day and counts back to the second of the day. -/
theorem absClock_spec (abs : Int) :
    0 ≤ (absClock abs).1 ∧ (absClock abs).1 < 24 ∧ 0 ≤ (absClock abs).2.1 ∧
      (absClock abs).2.1 < 60 ∧ 0 ≤ (absClock abs).2.2 ∧ (absClock abs).2.2 < 60 ∧
      (absClock abs).1 * 3600 + (absClock abs).2.1 * 60 + (absClock abs).2.2 = abs % 86400 := by
  simp only [absClock]
  omega

/-- On the fields of a valid date and time `Date` does no normalising. -/
theorem Date_sec (year month day hour min sec : Int) (nsec : Nat) (hm1 : 1 ≤ month)
    (hm2 : month ≤ 12) (hh1 : 0 ≤ hour) (hh2 : hour < 24) (hmi1 : 0 ≤ min) (hmi2 : min < 60)
    (hs1 : 0 ≤ sec) (hs2 : sec < 60) (hn : nsec < 1000000000) :
    Date year month day hour min sec nsec =
      { sec := (daysSinceEpoch year + daysBefore (month - 1) +
            (if (isLeap year && decide (month ≥ 3)) = true then 1 else 0) + (day - 1)) * 86400 +
            (hour * 3600 + min * 60 + sec) - (unixToInternal + internalToAbsolute),
        nsec := nsec, offset := 0 } := by
  have e1 : (month - 1) / 12 = 0 := by omega
  have e2 : (month - 1) % 12 + 1 = month := by omega
  have e3 : ((nsec / 1000000000 : Nat) : Int) = 0 := by
    have : nsec / 1000000000 = 0 := by omega
    rw [this]; rfl
  have e4 : nsec % 1000000000 = nsec := by omega
  have e5 : sec / 60 = 0 := by omega
  have e6 : sec % 60 = sec := by omega
  have e7 : min / 60 = 0 := by omega
  have e8 : min % 60 = min := by omega
  have e9 : hour / 24 = 0 := by omega
  have e10 : hour % 24 = hour := by omega
  simp only [Date, e1, e2, e3, e4, add_zero, e5, e6, e7, e8, e9, e10]

/-- The layout is its own example: the reference time of Go, 15:04:05.999 on January 2, 2006,
is written as the text of `timeFormat` up to the zone, which is `Z` in UTC. -/
theorem Format_reference :
    Format { sec := 1136214245, nsec := 999000000, offset := 0 } ++ ascii "07:00" =
      timeFormat := by
  decide

theorem decimalDigits_one (f u : Nat) (h : u < 10) : decimalDigits (f + 1) u = [48 + u] := by
  simp [decimalDigits, h]

theorem decimalDigits_two (f u : Nat) (h1 : ¬ u < 10) (h2 : u < 100) :
    decimalDigits (f + 2) u = [48 + u / 10, 48 + u % 10] := by
  rw [decimalDigits, if_neg h1, decimalDigits_one f (u / 10) (by omega)]
  rfl

theorem decimalDigits_three (f u : Nat) (h1 : ¬ u < 100) (h2 : u < 1000) :
    decimalDigits (f + 3) u = [48 + u / 10 / 10, 48 + u / 10 % 10, 48 + u % 10] := by
  rw [decimalDigits, if_neg (by omega), decimalDigits_two f (u / 10) (by omega) (by omega)]
  rfl

theorem decimalDigits_four (f u : Nat) (h1 : ¬ u < 1000) (h2 : u < 10000) :
    decimalDigits (f + 4) u =
      [48 + u / 10 / 10 / 10, 48 + u / 10 / 10 % 10, 48 + u / 10 % 10, 48 + u % 10] := by
  rw [decimalDigits, if_neg (by omega), decimalDigits_three f (u / 10) (by omega) (by omega)]
  rfl

theorem appendInt_two (n : Nat) (h : n < 100) :
    appendInt (n : Int) 2 = [48 + n / 10, 48 + n % 10] := by
  have hneg : ¬ ((n : Int) < 0) := by omega
  simp only [appendInt, Int.natAbs_ofNat, hneg, if_false, List.nil_append]
  by_cases h10 : n < 10
  · rw [decimalDigits_one 19 n h10]
    have e1 : n / 10 = 0 := by omega
    have e2 : n % 10 = n := by omega
    simp [e1, e2, List.replicate]
  · rw [decimalDigits_two 18 n h10 h]
    simp [List.replicate]

theorem appendInt_four (n : Nat) (h : n < 10000) :
    appendInt (n : Int) 4 = [48 + n / 1000, 48 + n / 100 % 10, 48 + n / 10 % 10, 48 + n % 10] := by
  have hneg : ¬ ((n : Int) < 0) := by omega
  simp only [appendInt, Int.natAbs_ofNat, hneg, if_false, List.nil_append]
  by_cases h10 : n < 10
  · rw [decimalDigits_one 19 n h10]
    have e1 : n / 1000 = 0 := by omega
    have e2 : n / 100 = 0 := by omega
    have e3 : n / 10 = 0 := by omega
    have e4 : n % 10 = n := by omega
    simp [e1, e2, e3, e4, List.replicate]
  · by_cases h100 : n < 100
    · rw [decimalDigits_two 18 n h10 h100]
      have e1 : n / 1000 = 0 := by omega
      have e2 : n / 100 = 0 := by omega
      have e3 : n / 10 % 10 = n / 10 := by omega
      simp [e1, e2, e3, List.replicate]
    · by_cases h1000 : n < 1000
      · rw [decimalDigits_three 17 n h100 h1000]
        have e1 : n / 1000 = 0 := by omega
        have e2 : n / 10 / 10 = n / 100 := by omega
        have e3 : n / 100 % 10 = n / 100 := by omega
        rw [e2]
        simp [e1, e3, List.replicate]
      · rw [decimalDigits_four 16 n h1000 h]
        have e1 : n / 10 / 10 / 10 = n / 1000 := by omega
        have e2 : n / 10 / 10 = n / 100 := by omega
        rw [e1, e2]
        simp [List.replicate]

theorem isDig_digit (d : Nat) (h : d < 10) : isDig (48 + d) = true := by
  simp only [isDig, Bool.and_eq_true, decide_eq_true_eq]
  omega

theorem getnum_two (a b : Nat) (ha : a < 10) (hb : b < 10) (rest : GoString) (fixed : Bool) :
    getnum ((48 + a) :: (48 + b) :: rest) fixed = some (a * 10 + b, rest) := by
  simp [getnum, isDig_digit a ha, isDig_digit b hb]

theorem parseYear_four (a b c d : Nat) (ha : a < 10) (hb : b < 10) (hc : c < 10) (hd : d < 10)
    (rest : GoString) :
    parseYear ((48 + a) :: (48 + b) :: (48 + c) :: (48 + d) :: rest) =
      some (a * 1000 + b * 100 + c * 10 + d, rest) := by
  simp [parseYear, isDig_digit a ha, isDig_digit b hb, isDig_digit c hc, isDig_digit d hd]

/-- The fields `Format` has written are read back by `Parse`. -/
theorem Parse_fields (Y M D H Mi S : Nat) (hY : Y < 10000) (hM1 : 1 ≤ M) (hM2 : M ≤ 12)
    (hD1 : 1 ≤ D) (hD2 : (D : Int) ≤ daysIn M Y) (hD3 : D < 100) (hH : H < 24) (hMi : Mi < 60)
    (hS : S < 60) (tail ztail : GoString) (nsec : Nat) (zone : Option Int)
    (hf : parseFrac tail = (nsec, ztail)) (hz : parseZone ztail = .ok (zone, [])) :
    Parse (appendInt Y 4 ++ 45 :: (appendInt M 2 ++ 45 :: (appendInt D 2 ++ 84 ::
      (appendInt H 2 ++ 58 :: (appendInt Mi 2 ++ 58 :: (appendInt S 2 ++ tail)))))) =
      .ok (parsedTime Y M D H Mi S nsec zone) := by
  rw [appendInt_four Y hY, appendInt_two M (by omega), appendInt_two D hD3,
    appendInt_two H (by omega), appendInt_two Mi (by omega), appendInt_two S (by omega)]
  have eY : Y / 1000 * 1000 + Y / 100 % 10 * 100 + Y / 10 % 10 * 10 + Y % 10 = Y := by omega
  have eM : M / 10 * 10 + M % 10 = M := by omega
  have eD : D / 10 * 10 + D % 10 = D := by omega
  have eH : H / 10 * 10 + H % 10 = H := by omega
  have eMi : Mi / 10 * 10 + Mi % 10 = Mi := by omega
  have eS : S / 10 * 10 + S % 10 = S := by omega
  have hM0 : ¬ (M = 0 ∨ 12 < M) := by omega
  have hH0 : ¬ (24 ≤ H) := by omega
  have hMi0 : ¬ (60 ≤ Mi) := by omega
  have hS0 : ¬ (60 ≤ S) := by omega
  have hD0 : ¬ (D < 1 ∨ (D : Int) > daysIn M Y) := by omega
  simp only [Parse, List.cons_append, List.nil_append,
    parseYear_four _ _ _ _ (show Y / 1000 < 10 by omega) (Nat.mod_lt _ (by norm_num))
      (Nat.mod_lt _ (by norm_num)) (Nat.mod_lt _ (by norm_num)),
    getnum_two _ _ (show M / 10 < 10 by omega) (Nat.mod_lt _ (by norm_num)),
    getnum_two _ _ (show D / 10 < 10 by omega) (Nat.mod_lt _ (by norm_num)),
    getnum_two _ _ (show H / 10 < 10 by omega) (Nat.mod_lt _ (by norm_num)),
    getnum_two _ _ (show Mi / 10 < 10 by omega) (Nat.mod_lt _ (by norm_num)),
    getnum_two _ _ (show S / 10 < 10 by omega) (Nat.mod_lt _ (by norm_num)),
    skip, if_true, eY, eM, eD, eH, eMi, eS, hM0, hH0, hMi0, hS0, hD0, if_false, hf, hz,
    List.isEmpty_nil, Bool.not_true, Bool.false_eq_true]

theorem parseFrac_zone (z : Nat) (zs : GoString) (hz : z = 90 ∨ z = 43 ∨ z = 45) :
    parseFrac (z :: zs) = (0, z :: zs) := by
  have h1 : (z == 46 || z == 44) = false := by
    rcases hz with h | h | h <;> subst h <;> decide
  cases zs with
  | nil => rfl
  | cons d rest => simp [parseFrac, h1]

/-- The fraction written by `formatNano` is read back as the whole milliseconds. -/
theorem parseFrac_formatNano (nsec : Nat) (hn : nsec < 1000000000) (z : Nat) (zs : GoString)
    (hz : z = 90 ∨ z = 43 ∨ z = 45) :
    parseFrac (formatNano nsec ++ z :: zs) = (nsec / 1000000 * 1000000, z :: zs) := by
  have hzd : isDig z = false := by
    rcases hz with h | h | h <;> subst h <;> decide
  obtain ⟨d1, hd1⟩ : ∃ d, d = nsec / 100000000 % 10 := ⟨_, rfl⟩
  obtain ⟨d2, hd2⟩ : ∃ d, d = nsec / 10000000 % 10 := ⟨_, rfl⟩
  obtain ⟨d3, hd3⟩ : ∃ d, d = nsec / 1000000 % 10 := ⟨_, rfl⟩
  have b1 : d1 < 10 := by omega
  have b2 : d2 < 10 := by omega
  have b3 : d3 < 10 := by omega
  have hval : nsec / 1000000 * 1000000 = (d1 * 100 + d2 * 10 + d3) * 1000000 := by omega
  rw [hval]
  simp only [formatNano, ← hd1, ← hd2, ← hd3]
  clear hval hd1 hd2 hd3 hn
  have g1 := isDig_digit d1 b1
  have g2 := isDig_digit d2 b2
  have g3 := isDig_digit d3 b3
  by_cases h3 : d3 = 0
  · have q3 : (48 + d3 == 48) = true := by simp [h3]
    by_cases h2 : d2 = 0
    · have q2 : (48 + d2 == 48) = true := by simp [h2]
      by_cases h1 : d1 = 0
      · have q1 : (48 + d1 == 48) = true := by simp [h1]
        simp [q1, q2, q3, List.dropWhile, parseFrac_zone z zs hz, h1, h2, h3]
      · have q1 : (48 + d1 == 48) = false := by simp [h1]
        simp [q1, q2, q3, List.dropWhile, parseFrac, g1, hzd, digitsValue, List.takeWhile, h2, h3]
        omega
    · have q2 : (48 + d2 == 48) = false := by simp [h2]
      simp [q2, q3, List.dropWhile, parseFrac, g1, g2, hzd, digitsValue, List.takeWhile, h3]
      omega
  · have q3 : (48 + d3 == 48) = false := by simp [h3]
    simp [q3, List.dropWhile, parseFrac, g1, g2, g3, hzd, digitsValue, List.takeWhile]
    omega

theorem formatZone_head (offset : Int) :
    ∃ z zs, formatZone offset = z :: zs ∧ (z = 90 ∨ z = 43 ∨ z = 45) := by
  unfold formatZone
  by_cases h0 : offset = 0
  · exact ⟨90, [], by simp [h0], Or.inl rfl⟩
  · simp only [h0, if_false]
    refine ⟨_, _, rfl, ?_⟩
    split_ifs <;> simp

theorem parseZone_digits (sign a b c d : Nat) (ha : a < 10) (hb : b < 10) (hc : c < 10)
    (hd : d < 10) (hs : sign = 43 ∨ sign = 45) (hr : a * 10 + b ≤ 24) (hm : c * 10 + d ≤ 60) :
    parseZone [sign, 48 + a, 48 + b, 58, 48 + c, 48 + d] =
      .ok (some (if sign = 43 then (((a * 10 + b) * 60 + (c * 10 + d)) * 60 : Nat)
        else -(((a * 10 + b) * 60 + (c * 10 + d)) * 60 : Nat)), []) := by
  have h1 : ¬ (a * 10 + b > 24) := by omega
  have h2 : ¬ (c * 10 + d > 60) := by omega
  rcases hs with h | h <;> subst h <;>
    simp [parseZone, getnum_two _ _ ha hb, getnum_two _ _ hc hd, h1, h2]

/-- The zone written by `formatZone` is read back when the offset is a whole number of
minutes below 25 hours. -/
theorem parseZone_formatZone (offset : Int) (h60 : offset % 60 = 0) (hlo : -90000 < offset)
    (hhi : offset < 90000) :
    parseZone (formatZone offset) = .ok (if offset = 0 then none else some offset, []) := by
  by_cases h0 : offset = 0
  · subst h0
    rfl
  · simp only [h0, if_false, formatZone]
    by_cases hneg : offset < 0
    · obtain ⟨n, hn⟩ : ∃ n : Nat, (n : Int) = -offset / 60 := ⟨(-offset / 60).toNat, by omega⟩
      have hn1 : 1 ≤ n := by omega
      have hn2 : n < 1500 := by omega
      have e1 : (n : Int) / 60 = ((n / 60 : Nat) : Int) := by omega
      have e2 : (n : Int) % 60 = ((n % 60 : Nat) : Int) := by omega
      simp only [hneg, if_true, ← hn, neg_neg, e1, e2]
      have e3 : (-(n : Int) < 0) := by omega
      simp only [e3, if_true]
      rw [e1, e2, appendInt_two _ (by omega), appendInt_two _ (by omega)]
      rw [List.cons_append, List.cons_append, List.nil_append]
      rw [parseZone_digits 45 _ _ _ _ (by omega) (by omega) (by omega) (by omega) (Or.inr rfl)
        (by omega) (by omega)]
      simp only [Nat.reduceEqDiff, if_false]
      congr 3
      omega
    · obtain ⟨n, hn⟩ : ∃ n : Nat, (n : Int) = offset / 60 := ⟨(offset / 60).toNat, by omega⟩
      have hn1 : 1 ≤ n := by omega
      have hn2 : n < 1500 := by omega
      have e1 : (n : Int) / 60 = ((n / 60 : Nat) : Int) := by omega
      have e2 : (n : Int) % 60 = ((n % 60 : Nat) : Int) := by omega
      have e3 : ¬ ((n : Int) < 0) := by omega
      simp only [hneg, if_false, ← hn, e3]
      rw [e1, e2, appendInt_two _ (by omega), appendInt_two _ (by omega)]
      rw [List.cons_append, List.cons_append, List.nil_append]
      rw [parseZone_digits 43 _ _ _ _ (by omega) (by omega) (by omega) (by omega) (Or.inl rfl)
        (by omega) (by omega)]
      simp only [if_true]
      congr 3
      omega

theorem daysIn_le (m year : Int) (h1 : 1 ≤ m) (h2 : m ≤ 12) : daysIn m year ≤ 31 := by
  have hm : m = 1 ∨ m = 2 ∨ m = 3 ∨ m = 4 ∨ m = 5 ∨ m = 6 ∨ m = 7 ∨ m = 8 ∨ m = 9 ∨ m = 10 ∨
      m = 11 ∨ m = 12 := by omega
  rcases hm with h | h | h | h | h | h | h | h | h | h | h | h <;> subst h <;>
    simp only [daysIn] <;> split <;> simp [daysBefore]

theorem Format_eq (t : Time) (year month day hour min sec : Int)
    (hp : absDate t.abs = (year, month, day)) (hq : absClock t.abs = (hour, min, sec)) :
    Format t = appendInt year 4 ++ 45 :: (appendInt month 2 ++ 45 ::
      (appendInt day 2 ++ 84 :: (appendInt hour 2 ++ 58 :: (appendInt min 2 ++ 58 ::
        (appendInt sec 2 ++ (formatNano t.nsec ++ formatZone t.offset)))))) := by
  unfold Format
  rw [hp, hq]

/-- The fields `Format` writes are put together again to the value, cut to milliseconds. -/
theorem parsedTime_eq (t : Time) (year month day hour min sec : Nat)
    (hn : t.nsec < 1000000000)
    (m1 : 1 ≤ month) (m2 : month ≤ 12) (c2 : hour < 24) (c4 : min < 60) (c6 : sec < 60)
    (hdays : daysSinceEpoch year + daysBefore ((month : Int) - 1) +
          (if (isLeap year && decide ((month : Int) ≥ 3)) = true then 1 else 0) +
          ((day : Int) - 1) = t.abs / 86400)
    (hclock : (hour : Int) * 3600 + min * 60 + sec = t.abs % 86400) :
    parsedTime year month day hour min sec (t.nsec / 1000000 * 1000000)
      (if t.offset = 0 then none else some t.offset) = t.truncMilli := by
  have hD := Date_sec year month day hour min sec (t.nsec / 1000000 * 1000000) (by omega)
    (by omega) (by omega) (by omega) (by omega) (by omega) (by omega) (by omega) (by omega)
  have habs : t.abs = t.sec + t.offset + (unixToInternal + internalToAbsolute) := rfl
  by_cases h0 : t.offset = 0
  · simp only [h0, if_true, parsedTime, hD, Time.truncMilli]
    congr 1
    omega
  · simp only [h0, if_false, parsedTime, hD, Time.truncMilli]
    congr 1
    omega

theorem parseFrac_Format (t : Time) (hn : t.nsec < 1000000000) :
    parseFrac (formatNano t.nsec ++ formatZone t.offset) =
      (t.nsec / 1000000 * 1000000, formatZone t.offset) := by
  obtain ⟨z, zs, hz, hzc⟩ := formatZone_head t.offset
  rw [hz]
  exact parseFrac_formatNano t.nsec hn z zs hzc

/-- The date and clock that `Format` writes for a value whose year has four digits. -/
theorem Format_fields (t : Time) (hy0 : 0 ≤ t.year) (hy1 : t.year ≤ 9999) :
    ∃ year month day hour min sec : Nat,
      absDate t.abs = ((year : Int), (month : Int), (day : Int)) ∧
      absClock t.abs = ((hour : Int), (min : Int), (sec : Int)) ∧
      year < 10000 ∧ 1 ≤ month ∧ month ≤ 12 ∧ 1 ≤ day ∧ (day : Int) ≤ daysIn month year ∧
      day < 100 ∧ hour < 24 ∧ min < 60 ∧ sec < 60 ∧
      daysSinceEpoch year + daysBefore ((month : Int) - 1) +
          (if (isLeap year && decide ((month : Int) ≥ 3)) = true then 1 else 0) +
          ((day : Int) - 1) = t.abs / 86400 ∧
      (hour : Int) * 3600 + min * 60 + sec = t.abs % 86400 := by
  obtain ⟨m1, m2, d1, d2, hdays⟩ := absDate_spec t.abs
  obtain ⟨c1, c2, c3, c4, c5, c6, hclock⟩ := absClock_spec t.abs
  obtain ⟨year, month, day, hp⟩ : ∃ y m d, absDate t.abs = (y, m, d) := ⟨_, _, _, rfl⟩
  obtain ⟨hour, min, sec, hq⟩ : ∃ h m s, absClock t.abs = (h, m, s) := ⟨_, _, _, rfl⟩
  simp only [Time.year] at hy0 hy1
  rw [hp] at m1 m2 d1 d2 hdays hy0 hy1
  rw [hq] at c1 c2 c3 c4 c5 c6 hclock
  simp only at m1 m2 d1 d2 hdays hy0 hy1 c1 c2 c3 c4 c5 c6 hclock
  have d3 := daysIn_le month year m1 m2
  lift year to Nat using hy0
  lift month to Nat using (by omega)
  lift day to Nat using (by omega)
  lift hour to Nat using c1
  lift min to Nat using c3
  lift sec to Nat using c5
  exact ⟨year, month, day, hour, min, sec, hp, hq, by omega, by omega, by omega, by omega, d2,
    by omega, by omega, by omega, by omega, hdays, hclock⟩

/-- The function `Parse` inverts `Format` up to the milliseconds, for a year of four digits
and an offset of whole minutes below 25 hours. -/
theorem Parse_Format (t : Time) (hn : t.nsec < 1000000000) (hy0 : 0 ≤ t.year)
    (hy1 : t.year ≤ 9999) (h60 : t.offset % 60 = 0) (hlo : -90000 < t.offset)
    (hhi : t.offset < 90000) : Parse (Format t) = .ok t.truncMilli := by
  obtain ⟨year, month, day, hour, min, sec, hp, hq, k1, k2, k3, k4, k5, k6, k7, k8, k9, hdays,
    hclock⟩ := Format_fields t hy0 hy1
  have hf := parseFrac_Format t hn
  have hzone := parseZone_formatZone t.offset h60 hlo hhi
  have e2 := Parse_fields year month day hour min sec k1 k2 k3 k4 k5 k6 k7 k8 k9 _ _ _ _ hf hzone
  rw [Format_eq t _ _ _ _ _ _ hp hq, e2,
    parsedTime_eq t year month day hour min sec hn k2 k3 k7 k8 k9 hdays hclock]

theorem decimalDigits_lt (f : Nat) : ∀ u, ∀ b ∈ decimalDigits f u, b < 58 := by
  induction f with
  | zero => intro u b hb; simp [decimalDigits] at hb
  | succ f ih =>
    intro u b hb
    rw [decimalDigits] at hb
    split at hb
    · simp at hb; omega
    · rcases List.mem_append.mp hb with h | h
      · exact ih _ b h
      · simp at h; omega

theorem appendInt_lt (x : Int) (width : Nat) : ∀ b ∈ appendInt x width, b < 58 := by
  intro b hb
  unfold appendInt at hb
  simp only [List.mem_append] at hb
  rcases hb with h | h | h
  · split at h <;> simp at h
    omega
  · have := List.eq_of_mem_replicate h
    omega
  · exact decimalDigits_lt 20 _ b h

theorem formatNano_lt (nanosec : Nat) : ∀ b ∈ formatNano nanosec, b < 58 := by
  intro b hb
  unfold formatNano at hb
  simp only at hb
  split at hb
  · simp at hb
  · rcases List.mem_cons.mp hb with h | h
    · omega
    · rw [List.mem_reverse] at h
      have h2 := (List.dropWhile_suffix _).subset h
      simp at h2
      omega

theorem formatZone_lt (offset : Int) : ∀ b ∈ formatZone offset, b < 91 := by
  intro b hb
  unfold formatZone at hb
  split at hb
  · simp at hb; omega
  · simp only [List.mem_cons, List.mem_append] at hb
    rcases hb with h | h | h | h
    · rw [h]; split_ifs <;> omega
    · have := appendInt_lt _ _ b h; omega
    · omega
    · have := appendInt_lt _ _ b h; omega

/-- All that `Format` writes is ASCII. -/
theorem Format_lt (t : Time) : ∀ b ∈ Format t, b < 256 := by
  intro b hb
  rw [Format_eq t _ _ _ _ _ _ rfl rfl] at hb
  simp only [List.mem_cons, List.mem_append] at hb
  rcases hb with h | h | h | h | h | h | h | h | h | h | h | h | h
  · have := appendInt_lt _ _ b h; omega
  · omega
  · have := appendInt_lt _ _ b h; omega
  · omega
  · have := appendInt_lt _ _ b h; omega
  · omega
  · have := appendInt_lt _ _ b h; omega
  · omega
  · have := appendInt_lt _ _ b h; omega
  · omega
  · have := appendInt_lt _ _ b h; omega
  · have := formatNano_lt _ b h; omega
  · have := formatZone_lt _ b h; omega

end GoTime

open GoTime

/-- Decoding gives back what `Format` wrote. -/
theorem DecodeString_EncodeCursor (t : Time) :
    Base64.DecodeString (EncodeCursor t) = .ok (Format t) :=
  Base64.DecodeString_EncodeToString (Format t) (Format_lt t)

theorem DecodeCursor_EncodeCursor_of_Parse (t r : Time) (h : Parse (Format t) = .ok r) :
    DecodeCursor (EncodeCursor t) = (r, none) := by
  simp only [DecodeCursor, DecodeString_EncodeCursor, h]

namespace GoTime

theorem parseYear_inv (v rest : GoString) (y : Nat) (h : parseYear v = some (y, rest)) :
    ∃ a b c d, v = a :: b :: c :: d :: rest ∧ isDig a = true ∧ isDig b = true ∧
      isDig c = true ∧ isDig d = true ∧
      y = (a - 48) * 1000 + (b - 48) * 100 + (c - 48) * 10 + (d - 48) := by
  match v, h with
  | a :: b :: c :: d :: r, h =>
    simp only [parseYear] at h
    split at h
    · rename_i hd
      simp only [Bool.and_eq_true] at hd
      simp only [Option.some.injEq, Prod.mk.injEq] at h
      obtain ⟨h1, h2⟩ := h
      subst h2
      exact ⟨a, b, c, d, rfl, hd.1.1.1, hd.1.1.2, hd.1.2, hd.2, h1.symm⟩
    · cases h
  | [], h => simp [parseYear] at h
  | [_], h => simp [parseYear] at h
  | [_, _], h => simp [parseYear] at h
  | [_, _, _], h => simp [parseYear] at h

theorem skip_inv (v rest : GoString) (c : Nat) (h : skip v c = some rest) : v = c :: rest := by
  match v, h with
  | a :: r, h =>
    simp only [skip] at h
    split at h
    · rename_i hc
      simp only [Option.some.injEq] at h
      rw [hc, h]
    · cases h
  | [], h => simp [skip] at h

theorem getnum_fixed_inv (v rest : GoString) (n : Nat) (h : getnum v true = some (n, rest)) :
    ∃ a b, v = a :: b :: rest ∧ isDig a = true ∧ isDig b = true ∧ n = num2 a b := by
  match v, h with
  | a :: b :: r, h =>
    simp only [getnum] at h
    by_cases ha : isDig a = true
    · by_cases hb : isDig b = true
      · simp only [ha, hb, if_true, Option.some.injEq, Prod.mk.injEq] at h
        obtain ⟨h1, h2⟩ := h
        subst h2
        exact ⟨a, b, rfl, ha, hb, h1.symm⟩
      · simp [ha, hb] at h
    · simp [ha] at h
  | [a], h => simp [getnum] at h
  | [], h => simp [getnum] at h

theorem getnum_inv (v rest : GoString) (n : Nat) (h : getnum v false = some (n, rest)) :
    (∃ a b, v = a :: b :: rest ∧ isDig a = true ∧ isDig b = true ∧ n = num2 a b) ∨
      (∃ a, v = a :: rest ∧ isDig a = true ∧ n < 10) := by
  match v, h with
  | a :: b :: r, h =>
    simp only [getnum] at h
    by_cases ha : isDig a = true
    · by_cases hb : isDig b = true
      · simp only [ha, hb, if_true, Option.some.injEq, Prod.mk.injEq] at h
        obtain ⟨h1, h2⟩ := h
        subst h2
        exact Or.inl ⟨a, b, rfl, ha, hb, h1.symm⟩
      · simp only [ha, hb, if_true, if_false, Bool.false_eq_true, Option.some.injEq,
          Prod.mk.injEq] at h
        obtain ⟨h1, h2⟩ := h
        subst h2
        refine Or.inr ⟨a, rfl, ha, ?_⟩
        simp only [isDig, Bool.and_eq_true, decide_eq_true_eq] at ha
        omega
    · simp [ha] at h
  | [a], h =>
    simp only [getnum] at h
    by_cases ha : isDig a = true
    · simp only [ha, Bool.not_false, Bool.and_self, if_true, Option.some.injEq,
        Prod.mk.injEq] at h
      obtain ⟨h1, h2⟩ := h
      subst h2
      refine Or.inr ⟨a, rfl, ha, ?_⟩
      simp only [isDig, Bool.and_eq_true, decide_eq_true_eq] at ha
      omega
    · simp [ha] at h
  | [], h => simp [getnum] at h

theorem parseFrac_inv (v rest : GoString) (nsec : Nat) (h : parseFrac v = (nsec, rest)) :
    ∃ frac, v = frac ++ rest ∧ IsFraction frac := by
  have hnil : ∀ n : Nat, (n, v) = (nsec, rest) → ∃ frac, v = frac ++ rest ∧ IsFraction frac := by
    intro n hn
    simp only [Prod.mk.injEq] at hn
    exact ⟨[], by simp [hn.2], Or.inl rfl⟩
  match v, h, hnil with
  | sep :: d :: r, h, hnil =>
    simp only [parseFrac] at h
    split at h
    · rename_i hc
      simp only [Bool.and_eq_true, Bool.or_eq_true, beq_iff_eq] at hc
      simp only [Prod.mk.injEq] at h
      refine ⟨sep :: (d :: r).takeWhile isDig, ?_, Or.inr ⟨sep, _, rfl, hc.1, ?_, ?_⟩⟩
      · rw [← h.2, List.cons_append, List.takeWhile_append_dropWhile]
      · simp [List.takeWhile_cons, hc.2]
      · intro x hx
        exact List.mem_takeWhile_imp hx
    · exact hnil _ h
  | [], h, hnil => exact hnil _ h
  | [a], h, hnil => exact hnil _ h

theorem parseZone_inv (v rest : GoString) (zone : Option Int)
    (h : parseZone v = .ok (zone, rest)) : ∃ z, v = z ++ rest ∧ IsZone z := by
  unfold parseZone at h
  split at h
  · simp only [Except.ok.injEq, Prod.mk.injEq] at h
    exact ⟨[90], by simp [h.2], Or.inl rfl⟩
  · rename_i sign h1 h2 colon m1 m2 r hne
    split at h
    · cases h
    · rename_i hcolon
      simp only [bne_iff_ne, ne_eq, Decidable.not_not] at hcolon
      subst hcolon
      split at h
      · cases h
      · rename_i hr x1 hg1
        obtain ⟨a, b, e1, da, db, ehr⟩ := getnum_fixed_inv _ _ _ hg1
        simp only [List.cons.injEq, and_true] at e1
        obtain ⟨ea, eb, _⟩ := e1
        subst ea eb
        split at h
        · split at h <;> cases h
        · rename_i mm x2 hg2
          obtain ⟨c, d, e2, dc, dd, emm⟩ := getnum_fixed_inv _ _ _ hg2
          simp only [List.cons.injEq, and_true] at e2
          obtain ⟨ec, ed, _⟩ := e2
          subst ec ed
          split at h
          · cases h
          · rename_i hmm
            split at h
            · cases h
            · rename_i hhr
              have hsign : (sign = 43 ∨ sign = 45) ∧ rest = r := by
                split at h
                · rename_i hs
                  simp only [Except.ok.injEq, Prod.mk.injEq] at h
                  exact ⟨Or.inl hs, h.2.symm⟩
                · split at h
                  · rename_i hs
                    simp only [Except.ok.injEq, Prod.mk.injEq] at h
                    exact ⟨Or.inr hs, h.2.symm⟩
                  · cases h
              refine ⟨[sign, h1, h2, 58, m1, m2], by simp [hsign.2],
                Or.inr ⟨sign, h1, h2, m1, m2, rfl, hsign.1, da, db, dc, dd, ?_, ?_⟩⟩
              · rw [← ehr]; omega
              · rw [← emm]; omega
  · cases h

/-- What `Parse` accepts matches the layout. -/
theorem Parse_ok_matches (txt : GoString) (t : Time) (h : Parse txt = .ok t) :
    MatchesLayout txt := by
  unfold Parse at h
  split at h
  · cases h
  · rename_i year v1 hyear
    obtain ⟨y1, y2, y3, y4, e1, dy1, dy2, dy3, dy4, eyear⟩ := parseYear_inv _ _ _ hyear
    split at h
    · cases h
    · rename_i v2 hs1
      have e2 := skip_inv _ _ _ hs1
      split at h
      · cases h
      · rename_i month v3 hmo
        obtain ⟨mo1, mo2, e3, dmo1, dmo2, emonth⟩ := getnum_fixed_inv _ _ _ hmo
        split at h
        · cases h
        · rename_i hmrange
          split at h
          · cases h
          · rename_i v4 hs2
            have e4 := skip_inv _ _ _ hs2
            split at h
            · cases h
            · rename_i day v5 hday
              obtain ⟨d1, d2, e5, dd1, dd2, eday⟩ := getnum_fixed_inv _ _ _ hday
              split at h
              · cases h
              · rename_i v6 hs3
                have e6 := skip_inv _ _ _ hs3
                split at h
                · cases h
                · rename_i hour v7 hhour
                  split at h
                  · cases h
                  · rename_i hhrange
                    split at h
                    · cases h
                    · rename_i v8 hs4
                      have e8 := skip_inv _ _ _ hs4
                      split at h
                      · cases h
                      · rename_i min v9 hmin
                        obtain ⟨mi1, mi2, e9, dmi1, dmi2, emin⟩ := getnum_fixed_inv _ _ _ hmin
                        split at h
                        · cases h
                        · rename_i hmirange
                          split at h
                          · cases h
                          · rename_i v10 hs5
                            have e10 := skip_inv _ _ _ hs5
                            split at h
                            · cases h
                            · rename_i sec v11 hsec
                              obtain ⟨s1, s2, e11, ds1, ds2, esec⟩ :=
                                getnum_fixed_inv _ _ _ hsec
                              split at h
                              · cases h
                              · rename_i hsrange
                                split at h
                                rename_i nsec v12 hfrac
                                obtain ⟨frac, e12, hF⟩ := parseFrac_inv _ _ _ hfrac
                                split at h
                                · cases h
                                · rename_i zone v13 hzone
                                  obtain ⟨z, e13, hZ⟩ := parseZone_inv _ _ _ hzone
                                  split at h
                                  · cases h
                                  · rename_i hempty
                                    split at h
                                    · cases h
                                    · rename_i hdrange
                                      have hv13 : v13 = [] := by
                                        cases v13 with
                                        | nil => rfl
                                        | cons a r => simp at hempty
                                      have hH : ∃ hh, v6 = hh ++ v7 ∧ IsHour hh := by
                                        rcases getnum_inv _ _ _ hhour with
                                          ⟨a, b, ev, da, db, en⟩ | ⟨a, ev, da, _⟩
                                        · refine ⟨[a, b], by simp [ev],
                                            Or.inr ⟨a, b, rfl, da, db, ?_⟩⟩
                                          rw [← en]; omega
                                        · exact ⟨[a], by simp [ev], Or.inl ⟨a, rfl, da⟩⟩
                                      obtain ⟨hh, e7, hHour⟩ := hH
                                      refine ⟨y1, y2, y3, y4, mo1, mo2, d1, d2, mi1, mi2, s1, s2,
                                        hh, frac, z, ?_, ?_, hHour, hF, hZ, ?_, ?_, ?_, ?_, ?_,
                                        ?_⟩
                                      · rw [e1, e2, e3, e4, e5, e6, e7, e8, e9, e10, e11, e12,
                                          e13, hv13]
                                        simp
                                      · intro c hc
                                        simp only [List.mem_cons, List.mem_singleton,
                                          List.mem_nil_iff, or_false] at hc
                                        rcases hc with r | r | r | r | r | r | r | r | r | r |
                                          r | r <;> rw [r] <;> assumption
                                      · rw [← emonth]; omega
                                      · rw [← emonth]; omega
                                      · rw [← eday]; omega
                                      · rw [← emonth, ← eday, ← eyear]
                                        omega
                                      · rw [← emin]; omega
                                      · rw [← esec]; omega

theorem getnum_digits (a b : Nat) (ha : isDig a = true) (hb : isDig b = true) (rest : GoString)
    (fixed : Bool) : getnum (a :: b :: rest) fixed = some (num2 a b, rest) := by
  simp [getnum, ha, hb, num2]

theorem dropWhile_digits (ds rest : GoString) (hds : ∀ d ∈ ds, isDig d = true) :
    (ds ++ rest).dropWhile isDig = rest.dropWhile isDig := by
  induction ds with
  | nil => rfl
  | cons d ds ih =>
    have hd := hds d (by simp)
    rw [List.cons_append, List.dropWhile_cons, hd]
    exact ih (fun x hx => hds x (by simp [hx]))

theorem IsZone_head (zone : GoString) (h : IsZone zone) :
    ∃ z zs, zone = z :: zs ∧ (z = 90 ∨ z = 43 ∨ z = 45) := by
  rcases h with h | ⟨sign, h1, h2, m1, m2, h, hs, _⟩
  · exact ⟨90, [], h, Or.inl rfl⟩
  · exact ⟨sign, _, h, Or.inr hs⟩

theorem parseFrac_matches (frac zone : GoString) (hF : IsFraction frac) (hZ : IsZone zone) :
    ∃ nsec, parseFrac (frac ++ zone) = (nsec, zone) := by
  obtain ⟨z, zs, hz, hzc⟩ := IsZone_head zone hZ
  have hzd : isDig z = false := by
    rcases hzc with h | h | h <;> subst h <;> decide
  rcases hF with h | ⟨sep, ds, h, hsep, hne, hds⟩
  · subst h
    rw [List.nil_append, hz]
    exact ⟨0, parseFrac_zone z zs hzc⟩
  · subst h
    cases ds with
    | nil => exact absurd rfl hne
    | cons d ds =>
      have hd := hds d (by simp)
      have hsep2 : (sep == 46 || sep == 44) = true := by
        rcases hsep with h | h <;> subst h <;> decide
      have h2 : (parseFrac (sep :: (d :: ds) ++ zone)).2 = zone := by
        rw [List.cons_append, List.cons_append]
        simp only [parseFrac, hsep2, hd, Bool.and_self, if_true]
        rw [← List.cons_append, dropWhile_digits (d :: ds) zone hds, hz, List.dropWhile_cons,
          hzd]
        rfl
      exact ⟨(parseFrac (sep :: (d :: ds) ++ zone)).1, Prod.ext rfl h2⟩

theorem parseZone_matches (zone : GoString) (hZ : IsZone zone) :
    ∃ z, parseZone zone = .ok (z, []) := by
  rcases hZ with h | ⟨sign, h1, h2, m1, m2, h, hs, d1, d2, d3, d4, r1, r2⟩
  · subst h
    exact ⟨none, rfl⟩
  · subst h
    have k1 : ¬ (num2 h1 h2 > 24) := by omega
    have k2 : ¬ (num2 m1 m2 > 60) := by omega
    rcases hs with h | h <;> subst h
    · exact ⟨some (((num2 h1 h2 * 60 + num2 m1 m2) * 60 : Nat) : Int),
        by simp [parseZone, getnum_digits _ _ d1 d2, getnum_digits _ _ d3 d4, k1, k2]⟩
    · exact ⟨some (-(((num2 h1 h2 * 60 + num2 m1 m2) * 60 : Nat) : Int)),
        by simp [parseZone, getnum_digits _ _ d1 d2, getnum_digits _ _ d3 d4, k1, k2]⟩

theorem getnum_hour (hh rest : GoString) (h : IsHour hh) :
    ∃ n, getnum (hh ++ 58 :: rest) false = some (n, 58 :: rest) ∧ n < 24 := by
  rcases h with ⟨a, h, da⟩ | ⟨a, b, h, da, db, hr⟩
  · subst h
    have h58 : isDig 58 = false := by decide
    refine ⟨a - 48, by simp [getnum, da, h58], ?_⟩
    simp only [isDig, Bool.and_eq_true, decide_eq_true_eq] at da
    omega
  · subst h
    exact ⟨num2 a b, getnum_digits a b da db _ _, hr⟩

/-- What matches the layout is accepted by `Parse`. -/
theorem Parse_ok_of_matches (txt : GoString) (h : MatchesLayout txt) :
    ∃ t, Parse txt = .ok t := by
  obtain ⟨y1, y2, y3, y4, mo1, mo2, d1, d2, mi1, mi2, s1, s2, hh, frac, zone, heq, hdig, hH,
    hF, hZ, r1, r2, r3, r4, r5, r6⟩ := h
  have dy1 := hdig y1 (by simp)
  have dy2 := hdig y2 (by simp)
  have dy3 := hdig y3 (by simp)
  have dy4 := hdig y4 (by simp)
  have dmo1 := hdig mo1 (by simp)
  have dmo2 := hdig mo2 (by simp)
  have dd1 := hdig d1 (by simp)
  have dd2 := hdig d2 (by simp)
  have dmi1 := hdig mi1 (by simp)
  have dmi2 := hdig mi2 (by simp)
  have ds1 := hdig s1 (by simp)
  have ds2 := hdig s2 (by simp)
  obtain ⟨hour, hhour, hr⟩ := getnum_hour hh (mi1 :: mi2 :: 58 :: s1 :: s2 :: (frac ++ zone)) hH
  obtain ⟨nsec, hfrac⟩ := parseFrac_matches frac zone hF hZ
  obtain ⟨z, hzone⟩ := parseZone_matches zone hZ
  have e : txt = y1 :: y2 :: y3 :: y4 :: 45 :: mo1 :: mo2 :: 45 :: d1 :: d2 :: 84 ::
      (hh ++ 58 :: mi1 :: mi2 :: 58 :: s1 :: s2 :: (frac ++ zone)) := by
    rw [heq]
    simp
  have k1 : ¬ (num2 mo1 mo2 = 0 ∨ 12 < num2 mo1 mo2) := by omega
  have k2 : ¬ (24 ≤ hour) := by omega
  have k3 : ¬ (60 ≤ num2 mi1 mi2) := by omega
  have k4 : ¬ (60 ≤ num2 s1 s2) := by omega
  have k5 : ¬ (num2 d1 d2 < 1 ∨ (num2 d1 d2 : Int) >
      daysIn (num2 mo1 mo2)
        ((y1 - 48) * 1000 + (y2 - 48) * 100 + (y3 - 48) * 10 + (y4 - 48) : Nat)) := by omega
  cases hP : Parse txt with
  | ok t => exact ⟨t, rfl⟩
  | error err =>
    rw [e] at hP
    simp only [Parse, parseYear, dy1, dy2, dy3, dy4, Bool.and_self, if_true, skip,
      getnum_digits _ _ dmo1 dmo2, getnum_digits _ _ dd1 dd2, hhour,
      getnum_digits _ _ dmi1 dmi2, getnum_digits _ _ ds1 ds2, k1, k2, k3, k4, k5, if_false,
      hfrac, hzone, List.isEmpty_nil, Bool.not_true, Bool.false_eq_true, reduceCtorEq] at hP

end GoTime

/-! ### The cursor codec -/

/-- C1 (as amended): for every timestamp `t` (nanoseconds below one second) whose year on its
own clock has four digits (0 to 9999) and whose UTC offset is a whole number of minutes below
25 hours, `DecodeCursor (EncodeCursor t)` returns the nil error and the timestamp that
denotes `t` truncated to milliseconds, with the UTC offset of `t`. -/
theorem DecodeCursor_EncodeCursor (t : Time) (hn : t.nsec < 1000000000) (hy0 : 0 ≤ t.year)
    (hy1 : t.year ≤ 9999) (h60 : t.offset % 60 = 0) (hlo : -90000 < t.offset)
    (hhi : t.offset < 90000) : DecodeCursor (EncodeCursor t) = (t.truncMilli, none) :=
  DecodeCursor_EncodeCursor_of_Parse t t.truncMilli (Parse_Format t hn hy0 hy1 h60 hlo hhi)

/-- C1, the scenario of the specification: `2023-05-01T10:00:00.123Z` is encoded and decoded
to itself. -/
theorem DecodeCursor_EncodeCursor_witness :
    Format { sec := 1682935200, nsec := 123000000, offset := 0 } =
        ascii "2023-05-01T10:00:00.123Z" ∧
      (0 : Int) ≤ Time.year { sec := 1682935200, nsec := 123000000, offset := 0 } ∧
      Time.year { sec := 1682935200, nsec := 123000000, offset := 0 } ≤ 9999 ∧
      DecodeCursor (EncodeCursor { sec := 1682935200, nsec := 123000000, offset := 0 }) =
        ({ sec := 1682935200, nsec := 123000000, offset := 0 }, none) :=
  ⟨by decide, by decide, by decide,
    DecodeCursor_EncodeCursor { sec := 1682935200, nsec := 123000000, offset := 0 }
      (by decide) (by decide) (by decide) (by decide) (by decide) (by decide)⟩

/-- C1 fails as stated: the timestamp 10000-01-01T00:00:00Z is written with a five-digit
year, which `DecodeCursor` rejects with a parse error; and 1930-01-01T00:19:32 at the offset
+00:19:32 is written with the offset `+00:19`, so that it is decoded to an instant 32 seconds
later, at another offset. -/
theorem DecodeCursor_EncodeCursor_counterexample :
    Format { sec := 253402300800, nsec := 0, offset := 0 } = ascii "10000-01-01T00:00:00Z" ∧
      DecodeCursor (EncodeCursor { sec := 253402300800, nsec := 0, offset := 0 }) =
        (Time.zero, some (.parse { layoutElem := "-", message := "" })) ∧
      Format { sec := -1262304000, nsec := 0, offset := 1172 } =
        ascii "1930-01-01T00:19:32+00:19" ∧
      DecodeCursor (EncodeCursor { sec := -1262304000, nsec := 0, offset := 1172 }) =
        ({ sec := -1262303968, nsec := 0, offset := 1140 }, none) := by
  decide

/-- C2 (as amended): for every string `s` that is not valid padded standard-alphabet base-64
once its carriage returns and line feeds are taken out, `DecodeCursor s` returns the error of
`DecodeString` together with the zero timestamp: the error is the decode error, not a parse
error. -/
theorem DecodeCursor_corruptInput (s : GoString)
    (h : Base64.validStd (stripNewlines s) = false) :
    ∃ pos, Base64.DecodeString s = .error pos ∧
      DecodeCursor s = (Time.zero, some (.corruptInput pos)) := by
  obtain ⟨pos, hpos⟩ := Base64.DecodeString_error_of_invalid s h
  exact ⟨pos, hpos, by simp only [DecodeCursor, hpos]⟩

/-- C2, the scenario of the specification: `"not base64!!"` gives a decode error. -/
theorem DecodeCursor_corruptInput_witness :
    Base64.validStd (stripNewlines (ascii "not base64!!")) = false ∧
      ∃ pos, Base64.DecodeString (ascii "not base64!!") = .error pos ∧
        DecodeCursor (ascii "not base64!!") = (Time.zero, some (.corruptInput pos)) :=
  ⟨by decide, DecodeCursor_corruptInput (ascii "not base64!!") (by decide)⟩

/-- C2 fails as stated: a cursor followed by a line feed is not valid padded
standard-alphabet base-64, yet `DecodeString` ignores the line feed, the text is parsed and
`DecodeCursor` returns the timestamp and the nil error. -/
theorem DecodeCursor_corruptInput_counterexample :
    Base64.validStd (ascii "MjAyMy0wNS0wMVQxMDowMDowMC4xMjNa\n") = false ∧
      DecodeCursor (ascii "MjAyMy0wNS0wMVQxMDowMDowMC4xMjNa\n") =
        ({ sec := 1682935200, nsec := 123000000, offset := 0 }, none) := by
  decide

/-- C3 (as amended): for every string `s` that is valid base-64 and whose decoded text does
not match the layout as `time.Parse` reads it (a one-digit hour, `,` for `.` and a fraction of
any number of digits are accepted; every field must be in range), `DecodeCursor s` returns a
non-nil parse error. -/
theorem DecodeCursor_parseError (s txt : GoString) (hd : Base64.DecodeString s = .ok txt)
    (hm : ¬ MatchesLayout txt) : ∃ e, DecodeCursor s = (Time.zero, some (.parse e)) := by
  cases hp : Parse txt with
  | ok t => exact absurd (Parse_ok_matches txt t hp) hm
  | error e => exact ⟨e, by simp only [DecodeCursor, hd, hp]⟩

theorem not_MatchesLayout_hello : ¬ MatchesLayout (ascii "hello world") := by
  rintro ⟨y1, y2, y3, y4, mo1, mo2, d1, d2, mi1, mi2, s1, s2, hh, frac, zone, heq, hdig, _⟩
  have h1 : ascii "hello world" = 104 :: ascii "ello world" := by decide
  rw [h1] at heq
  simp only [List.cons_append, List.cons.injEq] at heq
  have := hdig y1 (by simp)
  rw [← heq.1] at this
  revert this
  decide

/-- C3, the scenario of the specification: the base-64 of `"hello world"` gives a parse
error. -/
theorem DecodeCursor_parseError_witness :
    Base64.DecodeString (ascii "aGVsbG8gd29ybGQ=") = .ok (ascii "hello world") ∧
      ¬ MatchesLayout (ascii "hello world") ∧
      ∃ e, DecodeCursor (ascii "aGVsbG8gd29ybGQ=") = (Time.zero, some (.parse e)) :=
  ⟨rfl, not_MatchesLayout_hello,
    DecodeCursor_parseError (ascii "aGVsbG8gd29ybGQ=") (ascii "hello world") rfl
      not_MatchesLayout_hello⟩

/-- C3 fails as stated: the text `2023-05-01T10:00:00.123456789Z`, a timestamp with nine
fraction digits, does not match the pattern of the cursor (at most three), yet its base-64
is decoded without error, to a timestamp with all nine digits. -/
theorem DecodeCursor_parseError_counterexample :
    matchesWirePattern (ascii "2023-05-01T10:00:00.123456789Z") = false ∧
      Base64.DecodeString (ascii "MjAyMy0wNS0wMVQxMDowMDowMC4xMjM0NTY3ODla") =
        .ok (ascii "2023-05-01T10:00:00.123456789Z") ∧
      DecodeCursor (ascii "MjAyMy0wNS0wMVQxMDowMDowMC4xMjM0NTY3ODla") =
        ({ sec := 1682935200, nsec := 123456789, offset := 0 }, none) :=
  ⟨by decide, rfl, by decide⟩

/-! ### The transaction helper -/

theorem GetTransactionFromCtx_WithValue (ctx : Context) (tx : TxHandle) :
    GetTransactionFromCtx (WithValue ctx ctxKeyTransaction (.sqlTx tx)) = (tx, true) := by
  simp [GetTransactionFromCtx, WithValue, Context.Value]

theorem newOrNestedTx_outer (ctx : Context) (db : DB)
    (hctx : (GetTransactionFromCtx ctx).2 = false) :
    newOrNestedTx ctx db = (((db.BeginTx ctx).1, false), [.beginTx (db.BeginTx ctx).1]) := by
  unfold newOrNestedTx
  rcases hg : GetTransactionFromCtx ctx with ⟨tx, b⟩
  simp only [hg] at hctx
  subst hctx
  rfl

theorem newOrNestedTx_nested (ctx : Context) (db : DB)
    (hctx : (GetTransactionFromCtx ctx).2 = true) :
    newOrNestedTx ctx db = (((GetTransactionFromCtx ctx).1, true), []) := by
  unfold newOrNestedTx
  rcases hg : GetTransactionFromCtx ctx with ⟨tx, b⟩
  simp only [hg] at hctx
  subst hctx
  rfl

/-- On a context without a transaction `WithTransaction` leaves the end to the deferred
call. -/
theorem WithTransaction_outer (ctx : Context) (db : DB) (fn : Work)
    (hctx : (GetTransactionFromCtx ctx).2 = false) :
    WithTransaction ctx db fn =
      match fn (WithValue ctx ctxKeyTransaction (.sqlTx (db.BeginTx ctx).1)) with
      | (evs1, .returned err) =>
        ([.beginTx (db.BeginTx ctx).1] ++
            .work (WithValue ctx ctxKeyTransaction (.sqlTx (db.BeginTx ctx).1)) :: evs1 ++
            (recoverRollbackOrCommit (db.BeginTx ctx).1 .nil err).1,
          (recoverRollbackOrCommit (db.BeginTx ctx).1 .nil err).2)
      | (evs1, .panicked v) =>
        ([.beginTx (db.BeginTx ctx).1] ++
            .work (WithValue ctx ctxKeyTransaction (.sqlTx (db.BeginTx ctx).1)) :: evs1 ++
            (recoverRollbackOrCommit (db.BeginTx ctx).1 v none).1,
          (recoverRollbackOrCommit (db.BeginTx ctx).1 v none).2) := by
  unfold WithTransaction
  rw [newOrNestedTx_outer ctx db hctx]
  rfl

/-- On a context with a transaction `WithTransaction` calls the work function, nothing
else. -/
theorem WithTransaction_nested (ctx : Context) (db : DB) (fn : Work)
    (hctx : (GetTransactionFromCtx ctx).2 = true) :
    WithTransaction ctx db fn = (.work ctx :: (fn ctx).1, (fn ctx).2) := by
  unfold WithTransaction
  rw [newOrNestedTx_nested ctx db hctx]
  rfl

/-- C4: on a context that carries no transaction handle, with a database that begins
transaction `id` and a work function that returns nil, `WithTransaction` begins one
transaction, calls the work function once, with a context on which `GetTransactionFromCtx`
yields that transaction, then commits the transaction once, rolls nothing back, and
returns nil. -/
theorem WithTransaction_commit (ctx : Context) (db : DB) (fn : Work) (id : Nat)
    (evs : List Event) (hctx : (GetTransactionFromCtx ctx).2 = false)
    (hbegin : db.BeginTx ctx = (some id, none))
    (hfn : fn (WithValue ctx ctxKeyTransaction (.sqlTx (some id))) = (evs, .returned none)) :
    WithTransaction ctx db fn =
        (.beginTx (some id) :: .work (WithValue ctx ctxKeyTransaction (.sqlTx (some id))) ::
          (evs ++ [.commit id]), .returned none) ∧
      GetTransactionFromCtx (WithValue ctx ctxKeyTransaction (.sqlTx (some id))) =
        (some id, true) := by
  refine ⟨?_, GetTransactionFromCtx_WithValue ctx (some id)⟩
  rw [WithTransaction_outer ctx db fn hctx, hbegin]
  simp only [hfn, recoverRollbackOrCommit, Commit, List.singleton_append, List.cons_append,
    List.nil_append, ne_eq, not_true_eq_false, if_false]

/-- C5: on a context that carries no transaction handle, with a database that begins
transaction `id` and a work function that returns the error `e`, `WithTransaction` rolls the
transaction back once, commits nothing, and returns `e`. -/
theorem WithTransaction_rollback (ctx : Context) (db : DB) (fn : Work) (id : Nat)
    (evs : List Event) (e : GoError) (hctx : (GetTransactionFromCtx ctx).2 = false)
    (hbegin : db.BeginTx ctx = (some id, none))
    (hfn : fn (WithValue ctx ctxKeyTransaction (.sqlTx (some id))) = (evs, .returned (some e))) :
    WithTransaction ctx db fn =
      (.beginTx (some id) :: .work (WithValue ctx ctxKeyTransaction (.sqlTx (some id))) ::
        (evs ++ [.rollback id]), .returned (some e)) := by
  rw [WithTransaction_outer ctx db fn hctx, hbegin]
  simp only [hfn, recoverRollbackOrCommit, Rollback, List.singleton_append, List.cons_append,
    List.nil_append, ne_eq, not_true_eq_false, if_false]

/-- C6: on a context that already carries a transaction handle, with a work function that
returns `r`, `WithTransaction` begins nothing, commits nothing, rolls nothing back, calls
the work function once, with the context it was given, and returns `r`. -/
theorem WithTransaction_passthrough (ctx : Context) (db : DB) (fn : Work) (evs : List Event)
    (r : Option GoError) (hctx : (GetTransactionFromCtx ctx).2 = true)
    (hfn : fn ctx = (evs, .returned r)) :
    WithTransaction ctx db fn = (.work ctx :: evs, .returned r) := by
  rw [WithTransaction_nested ctx db fn hctx, hfn]

/-- A panic value that `recover()` reports, one that is not nil, is rolled back: on a context
that carries no transaction handle, with a database that begins transaction `id`,
`WithTransaction` rolls the transaction back once, commits nothing, and returns the error of
the type switch. -/
theorem WithTransaction_recovered (ctx : Context) (db : DB) (fn : Work) (id : Nat)
    (evs : List Event) (v : PanicValue) (hctx : (GetTransactionFromCtx ctx).2 = false)
    (hbegin : db.BeginTx ctx = (some id, none))
    (hfn : fn (WithValue ctx ctxKeyTransaction (.sqlTx (some id))) = (evs, .panicked v))
    (hv : v ≠ .nil) :
    WithTransaction ctx db fn =
      (.beginTx (some id) :: .work (WithValue ctx ctxKeyTransaction (.sqlTx (some id))) ::
        (evs ++ [.rollback id]), .returned (some (recoveredError v))) := by
  rw [WithTransaction_outer ctx db fn hctx, hbegin]
  simp only [hfn, recoverRollbackOrCommit, Rollback, List.singleton_append, List.cons_append,
    List.nil_append, ne_eq, hv, not_false_eq_true, if_true]

/-- C7, the failing input: the work function panics with nil and `recover()` returns nil
(go directive below 1.21). The test `r != nil` then fails, the named result is still nil,
and `WithTransaction` commits the transaction, rolls nothing back, and returns nil; every
other panic value is rolled back (`WithTransaction_recovered`). -/
theorem WithTransaction_panic_nil :
    WithTransaction [] { BeginTx := fun _ => (some 7, none) }
        (fun _ => ([], .panicked .nil)) =
      ([.beginTx (some 7), .work [(ctxKeyTransaction, .sqlTx (some 7))], .commit 7],
        .returned none) := by
  decide

/-- C8 (as amended): on a context that carries no transaction handle, with a database that
begins a transaction and a work function that panics with a value `v` that `recover()`
reports (one that is not nil), the error `WithTransaction` returns is `v` itself when `v` is
an error value, a new error with the message `v` when `v` is a string, and otherwise a new
error with the message "unknown error". -/
theorem WithTransaction_panic_error (ctx : Context) (db : DB) (fn : Work) (id : Nat)
    (evs : List Event) (v : PanicValue) (hctx : (GetTransactionFromCtx ctx).2 = false)
    (hbegin : db.BeginTx ctx = (some id, none))
    (hfn : fn (WithValue ctx ctxKeyTransaction (.sqlTx (some id))) = (evs, .panicked v)) :
    (∀ e, v = .err e → (WithTransaction ctx db fn).2 = .returned (some e)) ∧
      (∀ s, v = .str s → (WithTransaction ctx db fn).2 = .returned (some (.errorString s))) ∧
      (∀ n, v = .other n →
        (WithTransaction ctx db fn).2 = .returned (some (.errorString "unknown error"))) := by
  refine ⟨?_, ?_, ?_⟩
  · intro e he
    subst he
    rw [WithTransaction_recovered ctx db fn id evs _ hctx hbegin hfn (by simp)]
    rfl
  · intro s hs
    subst hs
    rw [WithTransaction_recovered ctx db fn id evs _ hctx hbegin hfn (by simp)]
    rfl
  · intro n hn
    subst hn
    rw [WithTransaction_recovered ctx db fn id evs _ hctx hbegin hfn (by simp)]
    rfl

/-- C4, on a request context without a transaction. -/
theorem WithTransaction_commit_witness :
    (GetTransactionFromCtx [(.other 1, .other 42)]).2 = false ∧
      WithTransaction [(.other 1, .other 42)] { BeginTx := fun _ => (some 7, none) }
          (fun _ => ([], .returned none)) =
        ([.beginTx (some 7),
          .work [(ctxKeyTransaction, .sqlTx (some 7)), (.other 1, .other 42)], .commit 7],
          .returned none) :=
  ⟨rfl, (WithTransaction_commit [(.other 1, .other 42)] { BeginTx := fun _ => (some 7, none) }
    (fun _ => ([], .returned none)) 7 [] rfl rfl rfl).1⟩

/-- C5, on a request context without a transaction. -/
theorem WithTransaction_rollback_witness :
    (GetTransactionFromCtx [(.other 1, .other 42)]).2 = false ∧
      WithTransaction [(.other 1, .other 42)] { BeginTx := fun _ => (some 7, none) }
          (fun _ => ([], .returned (some (.other 3 "duplicate key")))) =
        ([.beginTx (some 7),
          .work [(ctxKeyTransaction, .sqlTx (some 7)), (.other 1, .other 42)], .rollback 7],
          .returned (some (.other 3 "duplicate key"))) :=
  ⟨rfl, WithTransaction_rollback [(.other 1, .other 42)] { BeginTx := fun _ => (some 7, none) }
    (fun _ => ([], .returned (some (.other 3 "duplicate key")))) 7 [] (.other 3 "duplicate key")
    rfl rfl rfl⟩

/-- C6, on a context that carries transaction 3. -/
theorem WithTransaction_passthrough_witness :
    (GetTransactionFromCtx [(ctxKeyTransaction, .sqlTx (some 3))]).2 = true ∧
      WithTransaction [(ctxKeyTransaction, .sqlTx (some 3))]
          { BeginTx := fun _ => (some 7, none) }
          (fun _ => ([], .returned (some (.other 3 "duplicate key")))) =
        ([.work [(ctxKeyTransaction, .sqlTx (some 3))]],
          .returned (some (.other 3 "duplicate key"))) :=
  ⟨rfl, WithTransaction_passthrough [(ctxKeyTransaction, .sqlTx (some 3))]
    { BeginTx := fun _ => (some 7, none) }
    (fun _ => ([], .returned (some (.other 3 "duplicate key")))) []
    (some (.other 3 "duplicate key")) rfl rfl⟩

/-- C8, with a work function that panics with an error value, with a string, and with a
value that is neither. -/
theorem WithTransaction_panic_error_witness :
    (GetTransactionFromCtx []).2 = false ∧
      (WithTransaction [] { BeginTx := fun _ => (some 7, none) }
          (fun _ => ([], .panicked (.err (.other 3 "duplicate key"))))).2 =
        .returned (some (.other 3 "duplicate key")) ∧
      (WithTransaction [] { BeginTx := fun _ => (some 7, none) }
          (fun _ => ([], .panicked (.str "boom")))).2 =
        .returned (some (.errorString "boom")) ∧
      (WithTransaction [] { BeginTx := fun _ => (some 7, none) }
          (fun _ => ([], .panicked (.other 0)))).2 =
        .returned (some (.errorString "unknown error")) :=
  ⟨rfl,
    (WithTransaction_panic_error [] { BeginTx := fun _ => (some 7, none) }
      (fun _ => ([], .panicked (.err (.other 3 "duplicate key")))) 7 []
      (.err (.other 3 "duplicate key")) rfl rfl rfl).1 _ rfl,
    (WithTransaction_panic_error [] { BeginTx := fun _ => (some 7, none) }
      (fun _ => ([], .panicked (.str "boom"))) 7 [] (.str "boom") rfl rfl rfl).2.1 _ rfl,
    (WithTransaction_panic_error [] { BeginTx := fun _ => (some 7, none) }
      (fun _ => ([], .panicked (.other 0))) 7 [] (.other 0) rfl rfl rfl).2.2 _ rfl⟩

/-- C8 fails as stated: when the work function panics with the string `"boom"`, which is not
an error value, the error returned has the message `"boom"`, not `"unknown error"`. -/
theorem WithTransaction_panic_error_counterexample :
    (WithTransaction [] { BeginTx := fun _ => (some 7, none) }
          (fun _ => ([], .panicked (.str "boom")))).2 =
        .returned (some (.errorString "boom")) ∧
      GoError.Error (.errorString "boom") ≠ "unknown error" := by
  decide

/-- C9 (as amended): for every work function, on a context that carries no transaction handle
and with a database that begins a transaction, a panic of the work function with a value
that `recover()` reports (one that is not nil) does not cross `WithTransaction`: an error is
returned instead. When the context already carries a transaction handle, `WithTransaction`
panics with the value of the work function. -/
theorem WithTransaction_panic_boundary (ctx : Context) (db : DB) (fn : Work)
    (evs : List Event) (v : PanicValue) :
    ((GetTransactionFromCtx ctx).2 = false → ∀ id, db.BeginTx ctx = (some id, none) →
        fn (WithValue ctx ctxKeyTransaction (.sqlTx (some id))) = (evs, .panicked v) →
        v ≠ .nil → ∃ e, (WithTransaction ctx db fn).2 = .returned (some e)) ∧
      ((GetTransactionFromCtx ctx).2 = true → fn ctx = (evs, .panicked v) →
        (WithTransaction ctx db fn).2 = .panicked v) := by
  constructor
  · intro hctx id hbegin hfn hv
    rw [WithTransaction_recovered ctx db fn id evs v hctx hbegin hfn hv]
    exact ⟨_, rfl⟩
  · intro hctx hfn
    rw [WithTransaction_nested ctx db fn hctx, hfn]

/-- C9, on a context without and on a context with a transaction. -/
theorem WithTransaction_panic_boundary_witness :
    (∃ e, (WithTransaction [] { BeginTx := fun _ => (some 7, none) }
          (fun _ => ([], .panicked (.str "boom")))).2 = .returned (some e)) ∧
      (WithTransaction [(ctxKeyTransaction, .sqlTx (some 3))]
          { BeginTx := fun _ => (some 7, none) }
          (fun _ => ([], .panicked (.str "boom")))).2 = .panicked (.str "boom") :=
  ⟨(WithTransaction_panic_boundary [] { BeginTx := fun _ => (some 7, none) }
      (fun _ => ([], .panicked (.str "boom"))) [] (.str "boom")).1 rfl 7 rfl rfl (by decide),
    (WithTransaction_panic_boundary [(ctxKeyTransaction, .sqlTx (some 3))]
      { BeginTx := fun _ => (some 7, none) }
      (fun _ => ([], .panicked (.str "boom"))) [] (.str "boom")).2 rfl rfl⟩

/-- C9 fails as stated: on a context that already carries a transaction handle no deferred
call is installed, and the panic of the work function leaves `WithTransaction` as a panic. -/
theorem WithTransaction_panic_boundary_counterexample :
    GetTransactionFromCtx [(ctxKeyTransaction, .sqlTx (some 3))] = (some 3, true) ∧
      WithTransaction [(ctxKeyTransaction, .sqlTx (some 3))]
          { BeginTx := fun _ => (some 7, none) }
          (fun _ => ([], .panicked (.err (.other 3 "duplicate key")))) =
        ([.work [(ctxKeyTransaction, .sqlTx (some 3))]],
          .panicked (.err (.other 3 "duplicate key"))) := by
  decide

/-- C10: on a context that carries no transaction handle, when `BeginTx` fails with the nil
handle and an error, `WithTransaction` neither checks nor returns that error: it calls the
work function once, with a context that carries the nil handle under the transaction key, on
which `GetTransactionFromCtx` reports a handle as present, `(nil, true)`. (The deferred call
then commits or rolls back through the nil handle, which panics.) -/
theorem WithTransaction_begin_failure (ctx : Context) (db : DB) (fn : Work) (e : GoError)
    (hctx : (GetTransactionFromCtx ctx).2 = false) (hbegin : db.BeginTx ctx = (none, some e)) :
    GetTransactionFromCtx (WithValue ctx ctxKeyTransaction (.sqlTx none)) = (none, true) ∧
      WithTransaction ctx db fn =
        (.beginTx none :: .work (WithValue ctx ctxKeyTransaction (.sqlTx none)) ::
          (fn (WithValue ctx ctxKeyTransaction (.sqlTx none))).1, .panicked nilDereference) := by
  refine ⟨GetTransactionFromCtx_WithValue ctx none, ?_⟩
  rw [WithTransaction_outer ctx db fn hctx, hbegin]
  rcases hf : fn (WithValue ctx ctxKeyTransaction (.sqlTx none)) with ⟨evs, out⟩
  cases out with
  | returned err =>
    cases err <;>
      simp [recoverRollbackOrCommit, Rollback, Commit]
  | panicked v =>
    cases v <;>
      simp [recoverRollbackOrCommit, Rollback, Commit]

/-- C10, with a database that is closed. -/
theorem WithTransaction_begin_failure_witness :
    (GetTransactionFromCtx []).2 = false ∧
      GetTransactionFromCtx (WithValue [] ctxKeyTransaction (.sqlTx none)) = (none, true) ∧
      WithTransaction [] { BeginTx := fun _ => (none, some (.errorString "sql: database is closed")) }
          (fun _ => ([], .returned none)) =
        ([.beginTx none, .work [(ctxKeyTransaction, .sqlTx none)]], .panicked nilDereference) :=
  ⟨rfl, WithTransaction_begin_failure []
    { BeginTx := fun _ => (none, some (.errorString "sql: database is closed")) }
    (fun _ => ([], .returned none)) (.errorString "sql: database is closed") rfl rfl⟩

end GoCleanArch
